import Mathlib

/-!
Verification development for the FlowSpec AI-driven end-to-end test runner.

The TypeScript sources are shallowly embedded: pure functions become Lean
functions, stateful methods thread an explicit `World`, and all external
collaborators (browser automation transport, LLM oracle, file system, clock)
are abstracted as oracle parameters, exactly at the interface boundary the
specification draws.  JavaScript regular expressions are abstracted as a
`RegexEngine` record (compilation validity plus case-insensitive testing and
capture extraction), since the evaluation logic under verification only ever
uses a compiled regex through these operations.
-/

set_option linter.unusedVariables false

namespace FlowSpec

/-- JavaScript truthiness for optional string fields: `undefined`, `null` and
the empty string are all falsy. -/
def truthy : Option String → Bool
  | none => false
  | some s => !s.isEmpty

/-- JavaScript template-literal rendering of a possibly-undefined string
(`String(undefined)` prints as `undefined`). -/
def jsStr : Option String → String
  | none => "undefined"
  | some s => s

/-- JavaScript logical-or fallback for an optional string value. -/
def jsOr (a : Option String) (d : String) : String :=
  if truthy a then a.getD d else d

/-- Wrap a string in double quotes, as the backtick templates in the source do. -/
def q (s : String) : String := "\"" ++ s ++ "\""

/-- Join strings with a comma-space separator (JavaScript `join(", ")`). -/
def joinComma : List String → String
  | [] => ""
  | [x] => x
  | x :: y :: rest => x ++ ", " ++ joinComma (y :: rest)

/-- Last `n` elements of a list (JavaScript `slice(-n)` for positive `n`). -/
def lastN (n : Nat) (l : List α) : List α := l.drop (l.length - n)

/-- Character-list lowercasing (JavaScript `toLowerCase`, ASCII range as in
the core `Char.toLower`).  Defined structurally so that concrete inputs
evaluate inside the kernel. -/
def lowerStr (s : String) : String := String.mk (s.data.map Char.toLower)

/-- Strip leading and trailing whitespace (JavaScript `trim`), defined
structurally over the character list. -/
def jsTrim (s : String) : String :=
  String.mk (((s.data.dropWhile Char.isWhitespace).reverse.dropWhile Char.isWhitespace).reverse)

/-- Drop the first `n` characters. -/
def dropStr (s : String) (n : Nat) : String := String.mk (s.data.drop n)

/-- Take the first `n` characters. -/
def takeStr (s : String) (n : Nat) : String := String.mk (s.data.take n)

/-- Take the last `n` characters. -/
def takeRightStr (s : String) (n : Nat) : String :=
  String.mk ((s.data.reverse.take n).reverse)

/-- Leading-substring test. -/
def startsWithStr (s p : String) : Bool := p.data.isPrefixOf s.data

/-- The scanning loop of string splitting on a non-empty separator: at each
position, either the separator matches and the accumulated field is emitted,
or the scan advances one character.  The first argument is fuel, always at
least the number of remaining characters, making the recursion structural. -/
def splitOnGo (sep : List Char) : Nat → List Char → List Char → List (List Char)
  | _, [], acc => [acc.reverse]
  | 0, l, acc => [acc.reverse ++ l]
  | fuel + 1, c :: rest, acc =>
    if sep ≠ [] ∧ sep.isPrefixOf (c :: rest) then
      acc.reverse :: splitOnGo sep fuel (List.drop (sep.length - 1) rest) []
    else splitOnGo sep fuel rest (c :: acc)

/-- String splitting on every occurrence of a separator (JavaScript
`String.prototype.split` with a string separator, which coincides with the
standard leftmost non-overlapping split; an empty separator degenerates to
the whole string as the library function does). -/
def splitOnStr (s sep : String) : List String :=
  if sep = "" then [s]
  else (splitOnGo sep.data s.data.length s.data []).map String.mk

/-- Parse a non-empty run of decimal digits (JavaScript `parseInt` on an
all-digit string). -/
def parseNatDigits (ds : List Char) : Nat :=
  ds.foldl (fun n c => n * 10 + (c.toNat - 48)) 0

/-- Substring containment (JavaScript `String.prototype.includes`) for a
non-empty needle. -/
def includesStr (s sub : String) : Bool := (splitOnStr s sub).length > 1

/-- The character class escaped by the regex-escaping replace call in the
source (the JavaScript idiom escaping `.*+?^$\x7b\x7d()|[]\`). -/
def isRegexSpecial (c : Char) : Bool :=
  c = '.' || c = '*' || c = '+' || c = '?' || c = '^' || c = '$' ||
  c = '(' || c = ')' || c = '|' || c = '[' || c = ']' || c = '\\' ||
  c = Char.ofNat 123 || c = Char.ofNat 125

/-- Mirror of the source's regex escaping: prefix every regex metacharacter
with a backslash. -/
def regexEscape (s : String) : String :=
  String.mk (s.data.foldr (fun c acc => if isRegexSpecial c then '\\' :: c :: acc else c :: acc) [])

/-- Abstraction of the JavaScript regular-expression facility as the source
uses it.  `valid p` models whether `new RegExp(p, "i")` succeeds (an invalid
pattern throws at construction time and is caught by the surrounding
try/catch); `test p s` models `new RegExp(p, "i").test(s)`; `firstCapture p s`
models `s.match(new RegExp(p, "i"))?.[1]` (the first capturing group of the
first match); `firstMatchStr p s` models `s.match(...)?.[0]` (the whole
matched text).  All four are total functions, reflecting that a compiled
regex is deterministic. -/
structure RegexEngine where
  valid : String → Bool
  test : String → String → Bool
  firstCapture : String → String → Option String
  firstMatchStr : String → String → Option String

/-- A memory check of a verification spec: `\x7bkey, pattern?, shouldExist?\x7d`. -/
structure MemoryCheck where
  key : String
  pattern : Option String
  shouldExist : Option Bool
deriving DecidableEq, Repr

/-- A verification spec: the source object `\x7bmatch, notMatch, memoryChecks\x7d`
(fields renamed `matchPats` / `notMatchPats` because `match` is reserved). -/
structure Verification where
  matchPats : List String
  notMatchPats : List String
  memoryChecks : List MemoryCheck
deriving DecidableEq, Repr

/-- Outcome record `\x7bsuccess, actualResult\x7d` of the local evaluator. -/
structure VerifyResult where
  success : Bool
  actualResult : String
deriving DecidableEq, Repr

/-- The runner's persisted key-value memory, observed only through
`Map.get` in the verification code; storing `none` models storing
`undefined` (indistinguishable from absence through `get`). -/
def Mem := String → Option String

/-- Update one key of the memory map (JavaScript `Map.set`). -/
def setMem (m : Mem) (k : String) (v : Option String) : Mem :=
  fun k2 => if k2 = k then v else m k2

/-- The memory-check loop of `verifyWithPatterns` (and of the textually
identical copy inside `verifyExpectedResult`): returns the first failing
check's outcome, or `none` when every check passes.  An invalid value
pattern is logged and skipped, not fatal. -/
def memCheckFailure (R : RegexEngine) (memory : Mem) : List MemoryCheck → Option VerifyResult
  | [] => none
  | c :: rest =>
    let memValue := memory c.key
    let shouldExist := c.shouldExist ≠ some false
    if shouldExist ∧ memValue = none then
      some { success := false, actualResult := "Memory key " ++ q c.key ++ " not found" }
    else if ¬shouldExist ∧ memValue ≠ none then
      some { success := false,
             actualResult := "Memory key " ++ q c.key ++ " should not exist but has value " ++ q (jsStr memValue) }
    else if shouldExist ∧ truthy c.pattern then
      let p := c.pattern.getD ""
      if R.valid p then
        if ¬ R.test p (jsStr memValue) then
          some { success := false,
                 actualResult := "Memory " ++ q c.key ++ " value " ++ q (jsStr memValue) ++
                   " doesn\x27t match pattern " ++ q p }
        else memCheckFailure R memory rest
      else memCheckFailure R memory rest
    else memCheckFailure R memory rest

/-- The notMatch loop: first forbidden pattern that compiles and matches the
page text, if any.  Invalid patterns are skipped. -/
def notMatchFailure (R : RegexEngine) (pageContent : String) : List String → Option String
  | [] => none
  | p :: rest =>
    if R.valid p then
      if R.test p pageContent then some p else notMatchFailure R pageContent rest
    else notMatchFailure R pageContent rest

/-- The match loop: first pattern that compiles and matches the page text,
if any.  Invalid patterns are skipped. -/
def firstMatchPat (R : RegexEngine) (pageContent : String) : List String → Option String
  | [] => none
  | p :: rest =>
    if R.valid p then
      if R.test p pageContent then some p else firstMatchPat R pageContent rest
    else firstMatchPat R pageContent rest

/-- Translation of `verifyWithPatterns(verification, pageContent)`: the local
regex evaluator used on the replay path.  `verifyExpectedResult` inlines a
textually identical copy of this logic after fetching the patterns from the
LLM oracle; both are represented by this one pure function of the regex
engine, the runner memory, the spec and the page snapshot. -/
def verifyWithPatterns (R : RegexEngine) (memory : Mem) (v : Verification)
    (pageContent : String) : VerifyResult :=
  match memCheckFailure R memory v.memoryChecks with
  | some f => f
  | none =>
    match notMatchFailure R pageContent v.notMatchPats with
    | some p => { success := false, actualResult := "Found forbidden pattern: " ++ q p }
    | none =>
      if v.matchPats.length = 0 then
        { success := true, actualResult := "No forbidden patterns found" }
      else
        match firstMatchPat R pageContent v.matchPats with
        | some p => { success := true, actualResult := "Matched pattern: " ++ q p }
        | none =>
          { success := false,
            actualResult := "No patterns matched. Tried: " ++ joinComma (v.matchPats.map q) }

/-- Modelled from the spec: the outcome a single memory check contributes
according to the claimed evaluation order (fail with key-not-found when
existence is required and the key is absent; fail with should-not-exist when
existence is forbidden and the key is present; fail with a mismatch
description when a value pattern is given, compiles, and the stored value
fails the case-insensitive test; otherwise pass). -/
def memCheckOutcomeSpec (R : RegexEngine) (memory : Mem) (c : MemoryCheck) : Option VerifyResult :=
  let memValue := memory c.key
  let shouldExist := c.shouldExist ≠ some false
  if shouldExist ∧ memValue = none then
    some { success := false, actualResult := "Memory key " ++ q c.key ++ " not found" }
  else if ¬shouldExist ∧ memValue ≠ none then
    some { success := false,
           actualResult := "Memory key " ++ q c.key ++ " should not exist but has value " ++ q (jsStr memValue) }
  else if shouldExist ∧ truthy c.pattern ∧ R.valid (c.pattern.getD "") ∧
      ¬ R.test (c.pattern.getD "") (jsStr memValue) then
    some { success := false,
           actualResult := "Memory " ++ q c.key ++ " value " ++ q (jsStr memValue) ++
             " doesn\x27t match pattern " ++ q (c.pattern.getD "") }
  else none

/-- Modelled from the spec: the claimed fixed evaluation order of the local
evaluator — every memory check in sequence with the first failure
short-circuiting, then each notMatch pattern in order failing on the first
case-insensitive match, then success when the match list is empty, then
success on the first matching match pattern, else failure listing every
pattern tried; invalid patterns are skipped throughout. -/
def evaluateSpecOrder (R : RegexEngine) (memory : Mem) (v : Verification)
    (pageContent : String) : VerifyResult :=
  match v.memoryChecks.findSome? (memCheckOutcomeSpec R memory) with
  | some f => f
  | none =>
    match v.notMatchPats.find? (fun p => R.valid p && R.test p pageContent) with
    | some p => { success := false, actualResult := "Found forbidden pattern: " ++ q p }
    | none =>
      if v.matchPats.isEmpty then
        { success := true, actualResult := "No forbidden patterns found" }
      else
        match v.matchPats.find? (fun p => R.valid p && R.test p pageContent) with
        | some p => { success := true, actualResult := "Matched pattern: " ++ q p }
        | none =>
          { success := false,
            actualResult := "No patterns matched. Tried: " ++ joinComma (v.matchPats.map q) }

/-- A special-command descriptor as returned by `parseSpecialCommand`:
`\x7btype, url?, direction?\x7d` with `type` one of `navigate`, `reset`,
`scroll`, `none`. -/
structure SpecialCmd where
  type : String
  url : Option String
  direction : Option String
deriving DecidableEq, Repr

/-- A recorded, replayable primitive (source interface `PlanAction`). -/
structure PlanAction where
  type : String
  element : Option String
  ref : Option String
  textContent : Option String
  role : Option String
  value : Option String
  memoryKey : Option String
  url : Option String
  key : Option String
  extractionHint : Option String
  extractionRegex : Option String
deriving DecidableEq, Repr

/-- A raw action with every optional field absent, used to build concrete
actions succinctly. -/
def emptyAction : PlanAction :=
  { type := "", element := none, ref := none, textContent := none, role := none,
    value := none, memoryKey := none, url := none, key := none,
    extractionHint := none, extractionRegex := none }

/-- A learned plan step (source interface `PlanStep`).  The source stores
`learnedAt` as an ISO timestamp string or null. -/
structure PlanStep where
  originalInstruction : String
  type : String
  actions : List PlanAction
  specialCommand : Option SpecialCmd
  verification : Option Verification
  delay : Nat
  browserNum : Nat
  learnedAt : Option String
  failCount : Nat
deriving DecidableEq, Repr

/-- An execution plan (source interface `ExecutionPlan`). -/
structure ExecutionPlan where
  scenarioName : String
  createdAt : String
  updatedAt : String
  steps : List PlanStep
deriving DecidableEq, Repr

/-- Translation of `findPlanStep(plan, instruction)`: first stored step whose
`originalInstruction` equals the lookup key exactly, or null. -/
def findPlanStep (plan : Option ExecutionPlan) (instruction : String) : Option PlanStep :=
  match plan with
  | none => none
  | some p => p.steps.find? (fun s => s.originalInstruction == instruction)

/-- Translation of `upsertPlanStep(plan, step)`: replace the step at the
first index whose `originalInstruction` matches, else append; always set
`updatedAt` to the current time (passed here as the explicit `now`
argument in place of `new Date().toISOString()`). -/
def upsertPlanStep (plan : ExecutionPlan) (step : PlanStep) (now : String) : ExecutionPlan :=
  match plan.steps.findIdx? (fun s => s.originalInstruction == step.originalInstruction) with
  | some i => { plan with steps := plan.steps.set i step, updatedAt := now }
  | none => { plan with steps := plan.steps ++ [step], updatedAt := now }

/-- Recursive reformulation of the replace-first-or-append list operation
performed by `upsertPlanStep`; used to reason about it. -/
def upsertSteps (steps : List PlanStep) (step : PlanStep) : List PlanStep :=
  match steps with
  | [] => [step]
  | s :: rest =>
    if s.originalInstruction == step.originalInstruction then step :: rest
    else s :: upsertSteps rest step

/-- The plan-store key-uniqueness invariant: at most one stored step per
`originalInstruction` text. -/
def keyUnique (plan : ExecutionPlan) : Prop :=
  (plan.steps.map (fun s => s.originalInstruction)).Nodup

/-- Translation of `resolveElementRef(action, pageContent)`: re-resolve a
live protocol reference from the recorded `textContent` anchor (and optional
role hint and element description) against the current page snapshot.  The
pattern strings handed to the regex engine are built exactly as in the
source; `R.firstCapture` stands for `pageContent.match(new RegExp(p, "i"))`
followed by taking capture group 1. -/
def resolveElementRef (R : RegexEngine) (action : PlanAction) (pageContent : String) :
    Option String :=
  if ¬ truthy action.textContent then
    (if truthy action.ref then action.ref else none)
  else
    let escapedText := regexEscape (action.textContent.getD "")
    let roleHit : Option String :=
      if truthy action.role then
        let role := action.role.getD ""
        match R.firstCapture (role ++ "[^\\n]*" ++ escapedText ++ "[^\\n]*\\[ref=(\\w+)\\]") pageContent with
        | some r => some r
        | none => R.firstCapture (role ++ "[^\\n]*\\[ref=(\\w+)\\][^\\n]*" ++ escapedText) pageContent
      else none
    match roleHit with
    | some r => some r
    | none =>
      match R.firstCapture (escapedText ++ "[^\\n]*\\[ref=(\\w+)\\]") pageContent with
      | some r => some r
      | none =>
        match R.firstCapture ("\\[ref=(\\w+)\\][^\\n]*" ++ escapedText) pageContent with
        | some r => some r
        | none =>
          if truthy action.element ∧ action.element.getD "" ≠ action.textContent.getD "" then
            let escapedElem := regexEscape (action.element.getD "")
            match R.firstCapture (escapedElem ++ "[^\\n]*\\[ref=(\\w+)\\]") pageContent with
            | some r => some r
            | none => R.firstCapture ("\\[ref=(\\w+)\\][^\\n]*" ++ escapedElem) pageContent
          else none

/-- Modelled from the spec: the fixed, ordered strategy list of the element
resolution engine, as the claim enumerates it — (1) when a role hint is
recorded, role…text…ref then the mirror role…ref…text; (2) anchor text then
a ref marker on the same line; (3) a ref marker then the anchor text;
(4) when the element description is recorded and differs from the anchor
text, patterns 2–3 repeated with the description.  All literal text is
regex-escaped before being embedded. -/
def resolveStrategyList (action : PlanAction) : List String :=
  let t := regexEscape (action.textContent.getD "")
  (if truthy action.role then
    [action.role.getD "" ++ "[^\\n]*" ++ t ++ "[^\\n]*\\[ref=(\\w+)\\]",
     action.role.getD "" ++ "[^\\n]*\\[ref=(\\w+)\\][^\\n]*" ++ t]
   else []) ++
  [t ++ "[^\\n]*\\[ref=(\\w+)\\]", "\\[ref=(\\w+)\\][^\\n]*" ++ t] ++
  (if truthy action.element ∧ action.element.getD "" ≠ action.textContent.getD "" then
    let e := regexEscape (action.element.getD "")
    [e ++ "[^\\n]*\\[ref=(\\w+)\\]", "\\[ref=(\\w+)\\][^\\n]*" ++ e]
   else [])

/-- One parsed test step: `\x7binstruction, expectedResult, delay, browserNum\x7d`.
The sentinel expected result `__AUTO_PASS__` marks a step without a
verification clause. -/
structure TestStep where
  instruction : String
  expectedResult : String
  delay : Nat
  browserNum : Nat
deriving DecidableEq, Repr

/-- Scan for the first position where the pattern `[[digits]]` matches,
returning the characters before it, the digit characters, and the characters
after it.  This reproduces the first-match semantics of the source regex
(at a candidate position the digit run is maximal, and a position matches
exactly when that maximal run is non-empty and immediately followed by the
closing brackets). -/
def findDelaySpan : List Char → Option (List Char × List Char × List Char)
  | [] => none
  | c :: rest =>
    let here : Option (List Char × List Char) :=
      match c :: rest with
      | '[' :: '[' :: inner =>
        let ds := inner.takeWhile Char.isDigit
        let tail := inner.dropWhile Char.isDigit
        if ds ≠ [] then
          match tail with
          | ']' :: ']' :: after => some (ds, after)
          | _ => none
        else none
      | _ => none
    match here with
    | some (ds, after) => some ([], ds, after)
    | none =>
      match findDelaySpan rest with
      | some (before, ds, after) => some (c :: before, ds, after)
      | none => none

/-- Translation of `parseDelayFromInstruction(instruction)`: extract a
`[[milliseconds]]` token (first occurrence), returning the cleaned
instruction (token removed, trimmed) and the delay, defaulting to 200 ms. -/
def parseDelayFromInstruction (instruction : String) : String × Nat :=
  match findDelaySpan instruction.data with
  | some (before, ds, after) =>
    (jsTrim (String.mk before ++ String.mk after), parseNatDigits ds)
  | none => (instruction, 200)

/-- Translation of `parseBrowserPrefix(instruction)` (the asterisk-digit
browser routing tag): strip a leading `*1 ` / `*2 ` token (the whitespace
run after the digit is consumed greedily), defaulting to browser 1. -/
def parseBrowserTarget (instruction : String) : Nat × String :=
  match instruction.data with
  | '*' :: d :: rest =>
    if (d == '1' || d == '2') && (match rest with | c :: _ => c.isWhitespace | [] => false) then
      ((if d == '1' then 1 else 2), String.mk (rest.dropWhile Char.isWhitespace))
    else (1, instruction)
  | _ => (1, instruction)

/-- Strip a literal keyword, compared case-insensitively, from the front of
the string. -/
def stripCI (kw : String) (s : String) : Option String :=
  if startsWithStr (lowerStr s) kw then some (dropStr s kw.length) else none

/-- Require and strip a non-empty run of leading whitespace (the regex
one-or-more whitespace quantifier). -/
def stripWS1 (s : String) : Option String :=
  match s.data with
  | [] => none
  | c :: _ =>
    if c.isWhitespace then some (String.mk (s.data.dropWhile Char.isWhitespace)) else none

/-- Translation of `parseSpecialCommand(instruction)`: recognize the fixed
anchored, case-insensitive natural-language commands for navigation,
session/storage reset and scrolling. -/
def parseSpecialCommand (instruction : String) : SpecialCmd :=
  let nav : Option String :=
    ((match stripCI ("go") instruction with
      | some r => some r
      | none => stripCI ("navigate") instruction).bind stripWS1).bind
      (fun r => ((stripCI ("to") r).bind stripWS1).bind
        (fun rest => if rest.isEmpty then none else some rest))
  match nav with
  | some url => { type := "navigate", url := some (jsTrim url), direction := none }
  | none =>
    let reset : Bool :=
      match (match stripCI ("reset") instruction with
             | some r => some r
             | none => stripCI ("clear") instruction).bind stripWS1 with
      | some r => lowerStr r = "session" ∨ lowerStr r = "storage" ∨ lowerStr r = "localstorage"
      | none => false
    if reset then { type := "reset", url := none, direction := none }
    else
      match (stripCI ("scroll") instruction).bind stripWS1 with
      | some r =>
        if lowerStr r = "down" ∨ lowerStr r = "up" then
          { type := "scroll", url := none, direction := some (lowerStr r) }
        else { type := "none", url := none, direction := none }
      | none => { type := "none", url := none, direction := none }

/-- Recognize a file-inclusion line: the anchored case-insensitive pattern
of two hash marks followed by at least one character and a `.txt` suffix,
returning the captured file name. -/
def isIncludeLine (s : String) : Option String :=
  if startsWithStr s ("##") then
    let rest := dropStr s 2
    if rest.length ≥ 5 ∧ lowerStr (takeRightStr rest 4) = ".txt" then some rest else none
  else none

/-- Parse one non-empty, non-include line of a test file into a step, or
`none` when the line is malformed (a `>>>` separator with an empty
instruction part or empty expected-result part after trimming) and is
silently dropped. -/
def parseStepLine (trimmed : String) : Option TestStep :=
  let pb := parseBrowserTarget trimmed
  let browserNum := pb.1
  let withoutTag := pb.2
  if includesStr withoutTag (">>>") then
    let parts := (splitOnStr withoutTag (">>>")).map jsTrim
    let instructionPart := parts.getD 0 ""
    let expectedResult := parts.getD 1 ""
    if instructionPart ≠ "" ∧ expectedResult ≠ "" then
      let pd := parseDelayFromInstruction instructionPart
      some { instruction := pd.1, expectedResult := expectedResult, delay := pd.2,
             browserNum := browserNum }
    else none
  else
    let pd := parseDelayFromInstruction withoutTag
    some { instruction := pd.1, expectedResult := "__AUTO_PASS__", delay := pd.2,
           browserNum := browserNum }

/-- Parser state threaded through the recursive file expansion: the shared
mutable set of already-included absolute paths and the warnings emitted so
far (`console.warn` output). -/
structure PState where
  visited : List String
  warnings : List String
deriving DecidableEq, Repr

/-- Abstraction of the file system and path arithmetic used by the loader:
`resolve1 p` is `path.resolve(p)`, `resolveIn base name` is
`path.resolve(base, name)`, `dirname` is `path.dirname`, and `read p` is
`fs.readFileSync(p)` with `none` modelling a thrown read error. -/
structure FileSys where
  resolve1 : String → String
  resolveIn : String → String → String
  dirname : String → String
  read : String → Option String

/-- The warning emitted when a circular include is skipped. -/
def cycleWarning (filePath : String) : String :=
  "Circular include detected, skipping: " ++ filePath

/-- The per-line loop inlined in the body of `parseTestFileContent`: skip
blank lines, expand include directives in place (catching read errors of the
included file), and otherwise parse the line as a step, silently dropping
malformed lines.  The `inner` argument is the recursive call to file parsing
at one lower include depth, passed explicitly so that both functions are
structurally recursive. -/
def parseLinesWith (fsys : FileSys)
    (inner : String → String → PState → Option (PState × Except Unit (List TestStep))) :
    List String → String → PState → Option (PState × List TestStep)
  | [], _, st => some (st, [])
  | line :: rest, baseDir, st =>
    let trimmed := jsTrim line
    if trimmed = "" then parseLinesWith fsys inner rest baseDir st
    else
      match isIncludeLine trimmed with
      | some includeFileName =>
        let includePath := fsys.resolveIn baseDir includeFileName
        match inner includePath (fsys.dirname includePath) st with
        | none => none
        | some (st1, .ok includedSteps) =>
          match parseLinesWith fsys inner rest baseDir st1 with
          | none => none
          | some (st2, more) => some (st2, includedSteps ++ more)
        | some (st1, .error _) => parseLinesWith fsys inner rest baseDir st1
      | none =>
        match parseStepLine trimmed with
        | some step =>
          match parseLinesWith fsys inner rest baseDir st with
          | none => none
          | some (st1, more) => some (st1, step :: more)
        | none => parseLinesWith fsys inner rest baseDir st

/-- Translation of `parseTestFileContent(filePath, baseDir, includedFiles)`.
The `fuel` argument bounds the include-nesting depth only (the source relies
on the visited set to terminate; the no-fuel-exhaustion theorem below shows
a fuel of one more than the number of readable files is always enough, which
is the termination argument made formal).  `none` is fuel exhaustion;
`some (st, .error ())` is a thrown file-read error (propagated to the caller,
where an including site catches it); `some (st, .ok steps)` is a normal
return. -/
def parseTestFileContent (fsys : FileSys) :
    Nat → String → String → PState → Option (PState × Except Unit (List TestStep))
  | 0, _, _, _ => none
  | fuel + 1, filePath, baseDir, st =>
    let absolutePath := fsys.resolve1 filePath
    if absolutePath ∈ st.visited then
      some ({ st with warnings := st.warnings ++ [cycleWarning filePath] }, .ok [])
    else
      let st1 : PState := { st with visited := absolutePath :: st.visited }
      match fsys.read filePath with
      | none => some (st1, .error ())
      | some content =>
        match parseLinesWith fsys (parseTestFileContent fsys fuel)
            (splitOnStr content ("\n")) baseDir st1 with
        | none => none
        | some (st2, steps) => some (st2, .ok steps)

/-- Translation of `parseTestFile(filePath)`: expand from an empty visited
set, with the including file's directory as include base. -/
def parseTestFile (fsys : FileSys) (fuel : Nat) (filePath : String) :
    Option (PState × Except Unit (List TestStep)) :=
  parseTestFileContent fsys fuel filePath (fsys.dirname filePath) { visited := [], warnings := [] }

/-- The world outside the orchestration logic: a logical clock and the
runner's persisted key-value memory.  Oracle calls may advance the world. -/
structure World where
  time : Nat
  memory : Mem

/-- Per-step outcome record (source interface `TestResult`).  The wall-clock
`timestamp` field is omitted: it is real time, carries no information used
anywhere, and is not statable in a pure embedding. -/
structure TestResult where
  stepIndex : Nat
  instruction : String
  expectedResult : String
  actualResult : String
  success : Bool
  executedActions : List String
deriving DecidableEq, Repr

/-- The LangGraph channel state threaded through the per-step workflow
(source interface `TestState`; the constant `sessionId` and `startingUrl`
fields are omitted as they are never read by the logic under claim). -/
structure TestState where
  testSteps : List TestStep
  currentStepIndex : Nat
  results : List TestResult
  pageContent : Option String
  executionHistory : List String
  shouldContinue : Bool
  browserNum : Nat
deriving DecidableEq, Repr

/-- External collaborators of the runner, abstracted as deterministic
oracles over the world: the compiled-regex facility, the clock, the browser
transport (page snapshots, tool invocations, special-command effects) and
the LLM oracle (action proposals, verification patterns, narrow value
extraction).  `toolCall` returns the string the source builds from a tool
invocation — on success the rendered call, on a caught error a string
containing `error:` — and is handed the exact action object the orchestrator
submits. -/
structure Env where
  regex : RegexEngine
  nowStr : World → String
  readPage : World → Nat → String × World
  proposeActions : World → String → String → List String → Nat → List PlanAction × World
  getPatterns : World → String → Verification × World
  toolCall : World → Nat → String → PlanAction → String × World
  llmExtract : World → String → String → String × World
  specialEffect : World → SpecialCmd → Nat → World

/-- Translation of `executeSpecialCommand(cmd, browserNum)`: perform the
browser effect through the transport and return the fixed success string. -/
def executeSpecialCommand (env : Env) (w : World) (cmd : SpecialCmd) (browserNum : Nat) :
    String × World :=
  if cmd.type = "navigate" ∧ truthy cmd.url then
    ("Navigated to " ++ cmd.url.getD "", env.specialEffect w cmd browserNum)
  else if cmd.type = "reset" then
    ("Session/storage cleared and page reloaded", env.specialEffect w cmd browserNum)
  else if cmd.type = "scroll" then
    ("Scrolled " ++ jsOr cmd.direction ("down"), env.specialEffect w cmd browserNum)
  else ("Unknown command", w)

/-- Translation of `storeInMemory(key, value)`: overwrite and persist, and
return the confirmation string. -/
def storeInMemory (w : World) (key : Option String) (value : Option String) : String × World :=
  ("Stored " ++ jsStr key ++ " in memory",
   { w with memory := setMem w.memory (jsStr key) value })

/-- Translation of `executeMCPAction(action, browserNum)`: memory operations
are handled locally; click, fill and navigate are dispatched to the browser
transport (fill first resolving a memory-sourced value, with an absent
memory key degrading to the empty string); any other action type yields the
unknown-action string. -/
def executeMCPAction (env : Env) (w : World) (action : PlanAction) (browserNum : Nat) :
    String × World :=
  if action.type = "memory_store" then
    storeInMemory w action.key action.value
  else if action.type = "memory_read" then
    ("Read " ++ jsStr action.key ++ " from memory: " ++
      (match w.memory (jsStr action.key) with
       | some v => q v
       | none => "undefined"), w)
  else if action.type = "click" then
    env.toolCall w browserNum ("browser_click") action
  else if action.type = "fill" then
    let fillValue : Option String :=
      if truthy action.memoryKey then
        match w.memory (action.memoryKey.getD "") with
        | some v => some v
        | none => some ""
      else action.value
    env.toolCall w browserNum ("browser_type") { action with value := fillValue }
  else if action.type = "navigate" then
    env.toolCall w browserNum ("browser_navigate") action
  else ("Unknown action type: " ++ action.type, w)

/-- The action-execution loop inside `executeStepActions`. -/
def execActionLoop (env : Env) (browserNum : Nat) :
    List PlanAction → World → List String → List String × World
  | [], w, acc => (acc, w)
  | a :: rest, w, acc =>
    let r := executeMCPAction env w a browserNum
    execActionLoop env browserNum rest r.2 (acc ++ [r.1])

/-- Translation of `executeStepActions(step, pageContent, executionHistory,
browserNum)`: special commands short-circuit without the LLM; otherwise the
LLM oracle proposes a raw action list (an unparsable response is the empty
list) and each action is executed through the transport.  Returns the
executed-action strings and the raw action list for plan enrichment. -/
def executeStepActions (env : Env) (w : World) (instruction pageContent : String)
    (executionHistory : List String) (browserNum : Nat) :
    (List String × List PlanAction) × World :=
  let specialCmd := parseSpecialCommand instruction
  if specialCmd.type ≠ "none" then
    let r := executeSpecialCommand env w specialCmd browserNum
    (([r.1], []), r.2)
  else
    let pa := env.proposeActions w instruction pageContent executionHistory browserNum
    let rawActions := pa.1
    let ex := execActionLoop env browserNum rawActions pa.2 []
    ((ex.1, rawActions), ex.2)

/-- Translation of `enrichActionsForPlan(rawActions, pageContent)`: rebuild
each raw action keeping only the seven transferable fields, attach a role
hint (first capture of the role-before-ref pattern built from the escaped
recorded ref) and a `textContent` anchor for click/fill actions carrying a
ref, and convert a memory-store with a literal value into an extraction
hint. -/
def enrichActionsForPlan (R : RegexEngine) (rawActions : List PlanAction)
    (pageContent : String) : List PlanAction :=
  rawActions.map (fun action =>
    let base : PlanAction :=
      { type := action.type, element := action.element, ref := action.ref,
        value := action.value, memoryKey := action.memoryKey, url := action.url,
        key := action.key, textContent := none, role := none,
        extractionHint := none, extractionRegex := none }
    let withAnchor : PlanAction :=
      if truthy action.ref ∧ (action.type = "click" ∨ action.type = "fill") then
        let escapedRef := regexEscape (action.ref.getD "")
        let roleMatch := R.firstCapture
          ("(button|link|textbox|checkbox|radio|combobox|heading|img|tab|menu)[^\\n]*\\[ref=" ++
            escapedRef ++ "\\]") pageContent
        { base with role := roleMatch.map lowerStr,
                    textContent := some (jsOr action.element (action.ref.getD "")) }
      else base
    if action.type = "memory_store" ∧ truthy action.value then
      { withAnchor with
          extractionHint := some (jsOr action.element
            ("Extract the value labeled " ++ q (jsStr action.key) ++ " from the page")),
          value := none }
    else withAnchor)

/-- Split an instruction on the `>>>` separator as both single-step entry
points do: the trimmed part before is the instruction (after delay
extraction), the trimmed part between the first two separators is the
expected result, and a line without the separator is an auto-pass step. -/
def parseSingleInstruction (instruction : String) (browserNum : Nat) : TestStep :=
  let trimmed := jsTrim instruction
  if includesStr trimmed (">>>") then
    let parts := (splitOnStr trimmed (">>>")).map jsTrim
    let pd := parseDelayFromInstruction (parts.getD 0 "")
    { instruction := pd.1, expectedResult := parts.getD 1 "", delay := pd.2,
      browserNum := browserNum }
  else
    let pd := parseDelayFromInstruction trimmed
    { instruction := pd.1, expectedResult := "__AUTO_PASS__", delay := pd.2,
      browserNum := browserNum }

/-- Translation of `runSingleStepLearning(instruction, browserNum)`: execute
with the LLM, capture enriched plan data, and verify locally with freshly
obtained patterns.  Returns the test result and the captured plan step,
whose failure counter is always zero here. -/
def runSingleStepLearning (env : Env) (w : World) (instruction : String) (browserNum : Nat) :
    (TestResult × PlanStep) × World :=
  let trimmed := jsTrim instruction
  let step := parseSingleInstruction instruction browserNum
  let specialCmd := parseSpecialCommand step.instruction
  if specialCmd.type ≠ "none" then
    let r := executeSpecialCommand env w specialCmd browserNum
    (({ stepIndex := 0, instruction := step.instruction, expectedResult := "(auto-pass)",
        actualResult := "Command executed successfully", success := true,
        executedActions := [r.1] },
      { originalInstruction := trimmed, type := "special", actions := [],
        specialCommand := some specialCmd, verification := none, delay := step.delay,
        browserNum := browserNum, learnedAt := some (env.nowStr r.2), failCount := 0 }),
     r.2)
  else
    let pc := env.readPage w browserNum
    let ea := executeStepActions env pc.2 step.instruction pc.1 [] browserNum
    let planActions := enrichActionsForPlan env.regex ea.1.2 pc.1
    let vr :=
      if step.expectedResult ≠ "__AUTO_PASS__" then
        let npc := env.readPage ea.2 browserNum
        let pats := env.getPatterns npc.2 step.expectedResult
        ((some pats.1, verifyWithPatterns env.regex pats.2.memory pats.1 npc.1), pats.2)
      else ((none, { success := true, actualResult := "Command executed successfully" }), ea.2)
    (({ stepIndex := 0, instruction := step.instruction,
        expectedResult := if step.expectedResult = "__AUTO_PASS__" then "(auto-pass)"
                          else step.expectedResult,
        actualResult := vr.1.2.actualResult, success := vr.1.2.success,
        executedActions := ea.1.1 },
      { originalInstruction := trimmed, type := "action", actions := planActions,
        specialCommand := none, verification := vr.1.1, delay := step.delay,
        browserNum := browserNum, learnedAt := some (env.nowStr vr.2), failCount := 0 }),
     vr.2)

/-- Translation of `extractDynamicValue(extractionRegex, extractionHint,
pageContent, browserNum)`: first try the recorded extraction regex (whole
matched text; an invalid regex falls through), then a narrow LLM extraction
call over at most the first 4000 characters of page text, returning its
trimmed non-empty response. -/
def extractDynamicValue (env : Env) (w : World) (extractionRegex extractionHint : Option String)
    (pageContent : String) (browserNum : Nat) : Option String × World :=
  let fromRegex : Option String :=
    if truthy extractionRegex then
      let r := extractionRegex.getD ""
      if env.regex.valid r then env.regex.firstMatchStr r pageContent else none
    else none
  match fromRegex with
  | some v => (some v, w)
  | none =>
    if truthy extractionHint then
      let resp := env.llmExtract w (extractionHint.getD "") (takeStr pageContent 4000)
      let content := jsTrim resp.1
      if content ≠ "" then (some content, resp.2) else (none, resp.2)
    else (none, w)

/-- Outcome of a plan replay, with the list of action objects actually
submitted to `executeMCPAction` kept as an observation trace. -/
structure ReplayOut where
  success : Bool
  result : TestResult
  mcpCalls : List PlanAction

/-- Build the early-failure result record of a replay. -/
def replayFailure (originalInstruction actualResult : String) (executedActions : List String)
    (mcpCalls : List PlanAction) : ReplayOut :=
  { success := false,
    result := { stepIndex := 0, instruction := originalInstruction, expectedResult := "",
                actualResult := actualResult, success := false,
                executedActions := executedActions },
    mcpCalls := mcpCalls }

/-- The action loop of `replayPlanStep`: dynamic memory stores re-derive
their value, static memory operations are handled locally, click/fill
actions with a recorded anchor are re-resolved (a failed resolution is a
hard replay failure), and every other action is executed through the
transport with an executed string containing `error` failing the replay. -/
def replayActionLoop (env : Env) (browserNum : Nat) (originalInstruction pageContent : String) :
    List PlanAction → World → List String → List PlanAction →
    (World × List String × List PlanAction) ⊕ (World × ReplayOut)
  | [], w, acc, calls => .inl (w, acc, calls)
  | action :: rest, w, acc, calls =>
    if action.type = "memory_store" ∧ (truthy action.extractionHint ∨ truthy action.extractionRegex) then
      let ev := extractDynamicValue env w action.extractionRegex action.extractionHint
        pageContent browserNum
      let valueOk : Bool := (match ev.1 with | some v => v ≠ "" | none => false) && truthy action.key
      if valueOk then
        let v := (ev.1).getD ""
        let sm := storeInMemory ev.2 action.key (some v)
        replayActionLoop env browserNum originalInstruction pageContent rest sm.2
          (acc ++ ["memory_store: " ++ (action.key.getD "") ++ " = " ++ v]) calls
      else
        .inr (ev.2, replayFailure originalInstruction
          ("Failed to extract dynamic value for " ++ jsStr action.key) acc calls)
    else if action.type = "memory_store" ∧ truthy action.key ∧ truthy action.value then
      let sm := storeInMemory w action.key action.value
      replayActionLoop env browserNum originalInstruction pageContent rest sm.2
        (acc ++ ["memory_store: " ++ (action.key.getD "") ++ " = " ++ (action.value.getD "")]) calls
    else if action.type = "memory_read" ∧ truthy action.key then
      replayActionLoop env browserNum originalInstruction pageContent rest w
        (acc ++ ["memory_read: " ++ (action.key.getD "")]) calls
    else
      let resolved : Option PlanAction :=
        if (action.type = "click" ∨ action.type = "fill") ∧ truthy action.textContent then
          match resolveElementRef env.regex action pageContent with
          | some r => some { action with ref := some r }
          | none => none
        else some action
      match resolved with
      | none =>
        .inr (w, replayFailure originalInstruction
          ("Could not find element: " ++ q (action.textContent.getD "")) acc calls)
      | some actionToExecute =>
        let r := executeMCPAction env w actionToExecute browserNum
        if includesStr r.1 ("error") then
          .inr (r.2, replayFailure originalInstruction r.1 (acc ++ [r.1])
            (calls ++ [actionToExecute]))
        else
          replayActionLoop env browserNum originalInstruction pageContent rest r.2
            (acc ++ [r.1]) (calls ++ [actionToExecute])

/-- Translation of `replayPlanStep(planStep, browserNum)`: replay a learned
step without LLM calls — special commands execute directly and auto-pass;
otherwise the current page is read once, each recorded action is replayed,
and the recorded verification spec (when present) is evaluated locally
against a fresh snapshot, an absent spec meaning auto-pass. -/
def replayPlanStep (env : Env) (w : World) (planStep : PlanStep) (browserNum : Nat) :
    ReplayOut × World :=
  if planStep.type = "special" ∧ planStep.specialCommand.isSome then
    let cmd := planStep.specialCommand.getD { type := "none", url := none, direction := none }
    let r := executeSpecialCommand env w cmd browserNum
    ({ success := true,
       result := { stepIndex := 0, instruction := planStep.originalInstruction,
                   expectedResult := "(auto-pass)",
                   actualResult := "Command executed successfully", success := true,
                   executedActions := [r.1] },
       mcpCalls := [] }, r.2)
  else
    let pc := env.readPage w browserNum
    match replayActionLoop env browserNum planStep.originalInstruction pc.1
        planStep.actions pc.2 [] [] with
    | .inr (w1, out) => (out, w1)
    | .inl (w1, executedActions, calls) =>
      match planStep.verification with
      | some verification =>
        let npc := env.readPage w1 browserNum
        let vr := verifyWithPatterns env.regex npc.2.memory verification npc.1
        let expectedResult :=
          if includesStr planStep.originalInstruction (">>>") then
            let e := jsTrim ((splitOnStr planStep.originalInstruction (">>>")).getD 1 "")
            if e = "" then "(auto-pass)" else e
          else "(auto-pass)"
        ({ success := vr.success,
           result := { stepIndex := 0, instruction := planStep.originalInstruction,
                       expectedResult := expectedResult, actualResult := vr.actualResult,
                       success := vr.success, executedActions := executedActions },
           mcpCalls := calls }, npc.2)
      | none =>
        ({ success := true,
           result := { stepIndex := 0, instruction := planStep.originalInstruction,
                       expectedResult := "(auto-pass)",
                       actualResult := "Command executed successfully", success := true,
                       executedActions := executedActions },
           mcpCalls := calls }, w1)

/-- Default step used to model an (unreachable) out-of-range index access on
the step array. -/
def defaultTestStep : TestStep :=
  { instruction := "", expectedResult := "", delay := 0, browserNum := 1 }

/-- Translation of `verifyExpectedResult(expectedResult, pageContent)`:
obtain match/notMatch/memoryChecks from the LLM oracle, then run the local
evaluator (the source inlines a copy of the `verifyWithPatterns` logic,
identical line for line). -/
def verifyExpectedResult (env : Env) (w : World) (expectedResult pageContent : String) :
    VerifyResult × World :=
  let pats := env.getPatterns w expectedResult
  (verifyWithPatterns env.regex pats.2.memory pats.1 pageContent, pats.2)

/-- Workflow node 1 (`readPage`): take a page snapshot for the step's
browser. -/
def readPageNode (env : Env) (w : World) (s : TestState) : World × TestState :=
  let pc := env.readPage w s.browserNum
  (pc.2, { s with pageContent := some pc.1 })

/-- Workflow node 2 (`executeStep`): execute the current step's actions and
append them to the execution history. -/
def executeStepNode (env : Env) (w : World) (s : TestState) : World × TestState :=
  let step := s.testSteps.getD s.currentStepIndex defaultTestStep
  let ea := executeStepActions env w step.instruction (s.pageContent.getD "")
    s.executionHistory s.browserNum
  (ea.2, { s with executionHistory := s.executionHistory ++ ea.1.1 })

/-- Workflow node 3 (`verifyStep`): auto-pass steps record success without a
page read; verified steps wait the settle delay, re-read the page, evaluate
the expected result and record the outcome, with `shouldContinue` set to the
verification verdict. -/
def verifyStepNode (env : Env) (w : World) (s : TestState) : World × TestState :=
  let step := s.testSteps.getD s.currentStepIndex defaultTestStep
  if step.expectedResult = "__AUTO_PASS__" then
    (w, { s with
      results := s.results ++
        [{ stepIndex := s.currentStepIndex, instruction := step.instruction,
           expectedResult := "(auto-pass)", actualResult := "Command executed successfully",
           success := true, executedActions := lastN 10 s.executionHistory }],
      shouldContinue := true })
  else
    let npc := env.readPage w s.browserNum
    let vr := verifyExpectedResult env npc.2 step.expectedResult npc.1
    (vr.2, { s with
      results := s.results ++
        [{ stepIndex := s.currentStepIndex, instruction := step.instruction,
           expectedResult := step.expectedResult, actualResult := vr.1.actualResult,
           success := vr.1.success, executedActions := lastN 10 s.executionHistory }],
      pageContent := some npc.1,
      shouldContinue := vr.1.success })

/-- One invocation of the compiled per-step workflow: the linear graph
`readPage → executeStep → verifyStep`. -/
def stepApp (env : Env) (w : World) (s : TestState) : World × TestState :=
  let r1 := readPageNode env w s
  let r2 := executeStepNode env r1.1 r1.2
  verifyStepNode env r2.1 r2.2

/-- The success test of `runStepWithRetry`: the step's result entries are
non-empty and the last of them succeeded. -/
def stepSucceeded (st : TestState) (stepIndex : Nat) : Bool :=
  let stepResults := st.results.filter (fun r => r.stepIndex == stepIndex)
  match stepResults.getLast? with
  | some r => r.success
  | none => false

/-- Outcome of the retry loop, instrumented with the number of pipeline
invocations performed and the exact states handed to each invocation. -/
structure RetryOut where
  world : World
  state : TestState
  attempts : Nat
  inputs : List TestState

/-- The while-loop of `runStepWithRetry`, with `fuel` the number of
remaining allowed attempts (`maxRetries + 1 - attempt`).  Each attempt first
discards the current step's prior result entries, invokes the pipeline, and
stops early on success. -/
def runStepWithRetryGo (env : Env) (stepIndex : Nat) :
    Nat → World → TestState → RetryOut
  | 0, w, lastState => { world := w, state := lastState, attempts := 0, inputs := [] }
  | fuel + 1, w, lastState =>
    let stateForAttempt : TestState :=
      { lastState with results := lastState.results.filter (fun r => !(r.stepIndex == stepIndex)) }
    let r := stepApp env w stateForAttempt
    if stepSucceeded r.2 stepIndex then
      { world := r.1, state := r.2, attempts := 1, inputs := [stateForAttempt] }
    else
      let out := runStepWithRetryGo env stepIndex fuel r.1 r.2
      { world := out.world, state := out.state, attempts := out.attempts + 1,
        inputs := stateForAttempt :: out.inputs }

/-- Translation of `runStepWithRetry(stepApp, state, stepIndex)`: up to
`maxRetries` additional attempts after the initial try. -/
def runStepWithRetry (env : Env) (maxRetries stepIndex : Nat) (w : World) (st : TestState) :
    RetryOut :=
  runStepWithRetryGo env stepIndex (maxRetries + 1) w st

/-- The step loop of `runTestSuite`, with a structural fuel argument that is
always at least the number of remaining steps: at index `i`, point the state
at step `i` and its declared browser, run the step with retries, and
continue to the next index only while `shouldContinue` holds, halting the
suite at the first step that exhausts its retries. -/
def runTestSuiteGo (env : Env) (maxRetries : Nat) (steps : List TestStep) :
    Nat → Nat → World → TestState → World × TestState
  | 0, _, w, st => (w, st)
  | fuel + 1, i, w, st =>
    if h : i < steps.length then
      let st1 : TestState :=
        { st with currentStepIndex := i, browserNum := (steps.get ⟨i, h⟩).browserNum }
      let out := runStepWithRetry env maxRetries i w st1
      if out.state.shouldContinue then
        runTestSuiteGo env maxRetries steps fuel (i + 1) out.world out.state
      else (out.world, out.state)
    else (w, st)

/-- The step loop of `runTestSuite` entered at index `i` (the fuel
`steps.length - i` covers all remaining steps). -/
def runTestSuiteLoop (env : Env) (maxRetries : Nat) (steps : List TestStep) (i : Nat)
    (w : World) (st : TestState) : World × TestState :=
  runTestSuiteGo env maxRetries steps (steps.length - i) i w st

/-- Translation of the body of `runTestSuite(testFilePath, browserNum,
startingUrl)` after file parsing and browser initialization: run every
parsed step from a fresh state. -/
def runTestSuiteFromSteps (env : Env) (maxRetries : Nat) (steps : List TestStep)
    (browserNum : Nat) (w : World) : World × TestState :=
  runTestSuiteLoop env maxRetries steps 0 w
    { testSteps := steps, currentStepIndex := 0, results := [], pageContent := none,
      executionHistory := [], shouldContinue := true, browserNum := browserNum }

/-- The placeholder result `runSingleStep` substitutes when a step produced
no result entry. -/
def noResultFor (step : TestStep) : TestResult :=
  { stepIndex := 0, instruction := step.instruction, expectedResult := step.expectedResult,
    actualResult := "No result", success := false, executedActions := [] }

/-- Translation of `runSingleStep(instruction, browserNum)`: run one parsed
instruction through the per-step workflow with retry logic from a fresh
single-step state. -/
def runSingleStep (env : Env) (maxRetries : Nat) (w : World) (instruction : String)
    (browserNum : Nat) : TestResult × World :=
  let step := parseSingleInstruction instruction browserNum
  let initialState : TestState :=
    { testSteps := [step], currentStepIndex := 0, results := [], pageContent := none,
      executionHistory := [], shouldContinue := true, browserNum := browserNum }
  let out := runStepWithRetry env maxRetries 0 w initialState
  (out.state.results.getD 0 (noResultFor step), out.world)

/-- Outcome record of `runSingleStepWithPlan`. -/
structure StepPlanOut where
  result : TestResult
  updatedPlanStep : Option PlanStep
  planUpdated : Bool
deriving Repr

/-- Translation of `runSingleStepWithPlan(instruction, browserNum, plan,
learningMode, planMatchKey)`: learning mode always re-learns and returns a
fresh plan step; otherwise a learned plan step for the match key is
replayed, falling back on replay failure to a fresh learning pass whose
saved step carries the previous step's failure counter plus one; with no
usable plan step the plain single-step path runs and the plan is untouched. -/
def runSingleStepWithPlan (env : Env) (maxRetries : Nat) (w : World) (instruction : String)
    (browserNum : Nat) (plan : Option ExecutionPlan) (learningMode : Bool)
    (planMatchKey : Option String) : StepPlanOut × World :=
  let matchKey := jsOr planMatchKey (jsTrim instruction)
  let planStep := findPlanStep plan matchKey
  if learningMode then
    let r := runSingleStepLearning env w instruction browserNum
    ({ result := r.1.1, updatedPlanStep := some r.1.2, planUpdated := true }, r.2)
  else
    match planStep with
    | some ps =>
      if truthy ps.learnedAt then
        let replay := replayPlanStep env w ps browserNum
        if replay.1.success then
          ({ result := replay.1.result, updatedPlanStep := none, planUpdated := false },
           replay.2)
        else
          let r := runSingleStepLearning env replay.2 instruction browserNum
          ({ result := r.1.1,
             updatedPlanStep := some { r.1.2 with failCount := ps.failCount + 1 },
             planUpdated := true }, r.2)
      else
        let r := runSingleStep env maxRetries w instruction browserNum
        ({ result := r.1, updatedPlanStep := none, planUpdated := false }, r.2)
    | none =>
      let r := runSingleStep env maxRetries w instruction browserNum
      ({ result := r.1, updatedPlanStep := none, planUpdated := false }, r.2)

/-- The `verifyWithPatterns` method as invoked on the runner object: it
reads the runner's memory and returns its verdict without modifying any
runner state (the returned world is the incoming world). -/
def runnerVerifyWithPatterns (R : RegexEngine) (w : World) (v : Verification)
    (pageContent : String) : VerifyResult × World :=
  (verifyWithPatterns R w.memory v pageContent, w)

/-- The empty runner memory. -/
def emptyMem : Mem := fun _ => none

/-- A concrete regex engine in which every pattern compiles and nothing ever
matches, used to exercise failure paths on concrete inputs. -/
def falseEngine : RegexEngine :=
  { valid := fun _ => true, test := fun _ _ => false,
    firstCapture := fun _ _ => none, firstMatchStr := fun _ _ => none }

/-- A concrete regex engine implementing case-insensitive substring
containment, used to exercise success paths on concrete inputs. -/
def subEngine : RegexEngine :=
  { valid := fun _ => true,
    test := fun p s => (s.toLower.splitOn p.toLower).length > 1,
    firstCapture := fun _ _ => none, firstMatchStr := fun _ _ => none }

/-- A concrete initial world. -/
def world0 : World := { time := 0, memory := emptyMem }

/-- A concrete world differing from `world0` only in the clock. -/
def world5 : World := { time := 5, memory := emptyMem }

/-- A concrete oracle environment: every pattern set demands the
never-matching token, so every verification fails; element captures never
resolve; tool calls succeed. -/
def envW : Env :=
  { regex := falseEngine,
    nowStr := fun w => "t" ++ toString w.time,
    readPage := fun w _ => ("snapshot", w),
    proposeActions := fun w _ _ _ _ => ([], w),
    getPatterns := fun w _ => ({ matchPats := ["TOKEN"], notMatchPats := [], memoryChecks := [] }, w),
    toolCall := fun w _ n _ => (n ++ "(args)", w),
    llmExtract := fun w _ _ => ("", w),
    specialEffect := fun w _ _ => w }

/-- A concrete plan step used by witnesses. -/
def stepI1 : PlanStep :=
  { originalInstruction := "i1", type := "action", actions := [], specialCommand := none,
    verification := none, delay := 200, browserNum := 1, learnedAt := some "t1", failCount := 0 }

/-- The same instruction key as `stepI1` with different content. -/
def stepI1b : PlanStep := { stepI1 with delay := 500 }

/-- A concrete plan holding only `stepI1`. -/
def planI1 : ExecutionPlan :=
  { scenarioName := "s", createdAt := "c", updatedAt := "u", steps := [stepI1] }

/-- A concrete click action carrying a textContent anchor, role hint and
element description. -/
def clickActW : PlanAction :=
  { emptyAction with
    type := "click", textContent := some "Login", role := some "button",
    ref := some "e1", element := some "Login button" }

/-- A concrete learned plan step whose only action is `clickActW`. -/
def psW3 : PlanStep :=
  { originalInstruction := "click login >>> ok", type := "action", actions := [clickActW],
    specialCommand := none, verification := none, delay := 200, browserNum := 1,
    learnedAt := some "t1", failCount := 4 }

/-- A concrete click action with a recorded raw reference but no anchor. -/
def anchorlessW : PlanAction := { emptyAction with type := "click", ref := some "stale" }

/-- A concrete learned plan step whose only action is `anchorlessW`. -/
def psW10 : PlanStep := { psW3 with actions := [anchorlessW] }

/-- A concrete single-step plan keyed by the instruction of `psW3`. -/
def plan3 : ExecutionPlan :=
  { scenarioName := "s", createdAt := "c", updatedAt := "u", steps := [psW3] }

/-- A concrete stored plan step for the instruction used in the C6
counterexample, carrying a positive failure counter. -/
def stepC6 : PlanStep := { stepI1 with originalInstruction := "do x >>> expected", failCount := 5 }

/-- A concrete plan holding only `stepC6`. -/
def planC6 : ExecutionPlan :=
  { scenarioName := "s", createdAt := "c", updatedAt := "u", steps := [stepC6] }

/-- A concrete test step with a verification clause, used by the retry
witness. -/
def stepDo : TestStep :=
  { instruction := "do", expectedResult := "exp", delay := 200, browserNum := 1 }

/-- A concrete initial suite state holding only `stepDo`. -/
def stDo : TestState :=
  { testSteps := [stepDo], currentStepIndex := 0, results := [], pageContent := none,
    executionHistory := [], shouldContinue := true, browserNum := 1 }

/-- A concrete file system with no readable files. -/
def emptyFS : FileSys :=
  { resolve1 := id, resolveIn := fun _ n => n, dirname := fun _ => ".", read := fun _ => none }

/-- A concrete two-file file system forming an include cycle: each file
includes the other and contributes one step of its own. -/
def cycFS : FileSys :=
  { resolve1 := id, resolveIn := fun _ n => n, dirname := fun _ => ".",
    read := fun p =>
      if p = "a.txt" then some ("##b.txt\nfoo >>> bar")
      else if p = "b.txt" then some ("##a.txt\nbaz >>> qux")
      else none }

/-- A concrete file system in which one file includes the same second file
twice (no cycle). -/
def repFS : FileSys :=
  { resolve1 := id, resolveIn := fun _ n => n, dirname := fun _ => ".",
    read := fun p =>
      if p = "a.txt" then some ("##b.txt\n##b.txt\nx >>> y")
      else if p = "b.txt" then some ("hello >>> world")
      else none }

/-- The empty parser state. -/
def pstate0 : PState := { visited := [], warnings := [] }

deriving instance DecidableEq for Except

/-- Number of paths of a (finite) read-domain list not yet in the visited
set: the termination measure of the recursive file expansion. -/
def remainingFiles (dom : List String) (st : PState) : Nat :=
  (dom.filter (fun p => !(st.visited.contains p))).length

end FlowSpec

namespace FlowSpec

theorem memCheckFailure_eq_findSome (R : RegexEngine) (mem : Mem) (l : List MemoryCheck) :
    memCheckFailure R mem l = l.findSome? (memCheckOutcomeSpec R mem) := by
  induction l with
  | nil => rfl
  | cons c rest ih =>
    by_cases h1 : c.shouldExist = some false
    · by_cases h2 : mem c.key = none
      · simp [memCheckFailure, memCheckOutcomeSpec, List.findSome?_cons, h1, h2, ih]
      · simp [memCheckFailure, memCheckOutcomeSpec, List.findSome?_cons, h1, h2]
    · by_cases h2 : mem c.key = none
      · simp [memCheckFailure, memCheckOutcomeSpec, List.findSome?_cons, h1, h2]
      · by_cases h3 : truthy c.pattern = true
        · by_cases h4 : R.valid (c.pattern.getD "") = true
          · by_cases h5 : R.test (c.pattern.getD "") (jsStr (mem c.key)) = true
            · simp [memCheckFailure, memCheckOutcomeSpec, List.findSome?_cons,
                h1, h2, h3, h4, h5, ih]
            · simp [memCheckFailure, memCheckOutcomeSpec, List.findSome?_cons,
                h1, h2, h3, h4, h5]
          · simp [memCheckFailure, memCheckOutcomeSpec, List.findSome?_cons,
              h1, h2, h3, h4, ih]
        · simp [memCheckFailure, memCheckOutcomeSpec, List.findSome?_cons, h1, h2, h3, ih]

theorem notMatchFailure_eq_find (R : RegexEngine) (page : String) (l : List String) :
    notMatchFailure R page l = l.find? (fun p => R.valid p && R.test p page) := by
  induction l with
  | nil => rfl
  | cons p rest ih =>
    simp only [notMatchFailure, List.find?_cons]
    by_cases hV : R.valid p = true
    · by_cases hT : R.test p page = true
      · simp [hV, hT]
      · simp [hV, hT, ih]
    · simp [hV, ih]

theorem firstMatchPat_eq_find (R : RegexEngine) (page : String) (l : List String) :
    firstMatchPat R page l = l.find? (fun p => R.valid p && R.test p page) := by
  induction l with
  | nil => rfl
  | cons p rest ih =>
    simp only [firstMatchPat, List.find?_cons]
    by_cases hV : R.valid p = true
    · by_cases hT : R.test p page = true
      · simp [hV, hT]
      · simp [hV, hT, ih]
    · simp [hV, ih]

/-- Claim C1: for every verification spec and page text, the local evaluator
follows exactly the claimed fixed order — each memory check in sequence with
the documented three failure modes and first-failure short-circuiting, then
each notMatch pattern in order failing immediately on the first
case-insensitive match, then success when the match list is empty and all
previous checks passed, then success on the first matching match pattern,
else failure listing all tried patterns — with invalid regex patterns
skipped rather than fatal.  Stated as: the translated evaluator coincides
with the evaluator modelled from the spec text, over every regex engine,
memory, spec and page. -/
theorem claim1_evaluate_order (R : RegexEngine) (mem : Mem) (v : Verification) (page : String) :
    verifyWithPatterns R mem v page = evaluateSpecOrder R mem v page := by
  unfold verifyWithPatterns evaluateSpecOrder
  rw [memCheckFailure_eq_findSome, notMatchFailure_eq_find, firstMatchPat_eq_find]
  rcases h : v.matchPats with _ | ⟨p, rest⟩ <;> simp [h]

/-- Claim C7: verification evaluation is a pure function of the spec, the
page text and the runner's memory: two runner states agreeing on memory
(regardless of any other world component) produce the same verdict, a call
leaves the runner state untouched, and an immediate second call with the
same inputs returns the identical outcome. -/
theorem claim7_pure_verification (R : RegexEngine) (w w2 : World) (v : Verification)
    (page : String) (hmem : w.memory = w2.memory) :
    (runnerVerifyWithPatterns R w v page).1 = (runnerVerifyWithPatterns R w2 v page).1 ∧
    (runnerVerifyWithPatterns R w v page).2 = w ∧
    (runnerVerifyWithPatterns R (runnerVerifyWithPatterns R w v page).2 v page).1 =
      (runnerVerifyWithPatterns R w v page).1 := by
  refine ⟨?_, rfl, rfl⟩
  simp [runnerVerifyWithPatterns, hmem]

/-- Witness for C7 at concrete inputs: two worlds with identical memory but
different clocks. -/
theorem claim7_witness :
    world0.memory = world5.memory ∧
    ((runnerVerifyWithPatterns subEngine world0
        { matchPats := ["welcome"], notMatchPats := ["error"], memoryChecks := [] }
        "welcome! error: bad").1 =
      (runnerVerifyWithPatterns subEngine world5
        { matchPats := ["welcome"], notMatchPats := ["error"], memoryChecks := [] }
        "welcome! error: bad").1 ∧
     (runnerVerifyWithPatterns subEngine world0
        { matchPats := ["welcome"], notMatchPats := ["error"], memoryChecks := [] }
        "welcome! error: bad").2 = world0 ∧
     (runnerVerifyWithPatterns subEngine
        (runnerVerifyWithPatterns subEngine world0
          { matchPats := ["welcome"], notMatchPats := ["error"], memoryChecks := [] }
          "welcome! error: bad").2
        { matchPats := ["welcome"], notMatchPats := ["error"], memoryChecks := [] }
        "welcome! error: bad").1 =
      (runnerVerifyWithPatterns subEngine world0
        { matchPats := ["welcome"], notMatchPats := ["error"], memoryChecks := [] }
        "welcome! error: bad").1) :=
  ⟨rfl, claim7_pure_verification subEngine world0 world5
    { matchPats := ["welcome"], notMatchPats := ["error"], memoryChecks := [] }
    "welcome! error: bad" rfl⟩

theorem upsertSteps_spec (l : List PlanStep) (step : PlanStep) :
    (match l.findIdx? (fun s => s.originalInstruction == step.originalInstruction) with
     | some i => l.set i step
     | none => l ++ [step]) = upsertSteps l step := by
  induction l with
  | nil => rfl
  | cons a rest ih =>
    by_cases h : a.originalInstruction == step.originalInstruction
    · simp [List.findIdx?_cons, h, upsertSteps]
    · simp only [List.findIdx?_cons, h, if_false, Bool.false_eq_true, if_neg,
        List.findIdx?_succ, upsertSteps]
      rcases hf : rest.findIdx? (fun s => s.originalInstruction == step.originalInstruction) with
        _ | i
      · rw [hf] at ih; simp [hf, ← ih]
      · rw [hf] at ih; simp [hf, ← ih]

theorem upsertPlanStep_steps (plan : ExecutionPlan) (step : PlanStep) (now : String) :
    (upsertPlanStep plan step now).steps = upsertSteps plan.steps step := by
  unfold upsertPlanStep
  have h := upsertSteps_spec plan.steps step
  rcases hf : plan.steps.findIdx? (fun s => s.originalInstruction == step.originalInstruction) with
    _ | i
  · rw [hf] at h; simp only [hf]; simpa using h
  · rw [hf] at h; simp only [hf]; simpa using h

theorem upsertPlanStep_updatedAt (plan : ExecutionPlan) (step : PlanStep) (now : String) :
    (upsertPlanStep plan step now).updatedAt = now := by
  unfold upsertPlanStep
  rcases hf : plan.steps.findIdx? (fun s => s.originalInstruction == step.originalInstruction) with
    _ | i <;> simp [hf]

theorem upsertSteps_find (l : List PlanStep) (step : PlanStep) :
    (upsertSteps l step).find? (fun s => s.originalInstruction == step.originalInstruction) =
      some step := by
  induction l with
  | nil => simp [upsertSteps, List.find?]
  | cons a rest ih =>
    by_cases h : a.originalInstruction == step.originalInstruction
    · simp [upsertSteps, h, List.find?]
    · simp [upsertSteps, h, List.find?, ih]

theorem upsertSteps_keys_of_present (l : List PlanStep) (step : PlanStep)
    (h : ∃ s ∈ l, s.originalInstruction = step.originalInstruction) :
    (upsertSteps l step).map (fun s => s.originalInstruction) =
      l.map (fun s => s.originalInstruction) := by
  induction l with
  | nil => simp at h
  | cons a rest ih =>
    by_cases ha : a.originalInstruction == step.originalInstruction
    · simp only [upsertSteps, ha, if_pos]
      simp only [List.map_cons]
      rw [show step.originalInstruction = a.originalInstruction from (eq_of_beq ha).symm]
    · have hrest : ∃ s ∈ rest, s.originalInstruction = step.originalInstruction := by
        rcases h with ⟨s, hs, hkey⟩
        rcases List.mem_cons.mp hs with rfl | hmem
        · exact absurd (beq_iff_eq.mpr hkey) (by simpa using ha)
        · exact ⟨s, hmem, hkey⟩
      simp [upsertSteps, ha, List.map_cons, ih hrest]

theorem upsertSteps_of_absent (l : List PlanStep) (step : PlanStep)
    (h : ∀ s ∈ l, s.originalInstruction ≠ step.originalInstruction) :
    upsertSteps l step = l ++ [step] := by
  induction l with
  | nil => rfl
  | cons a rest ih =>
    have ha : ¬(a.originalInstruction == step.originalInstruction) := by
      simpa using h a (List.mem_cons_self a rest)
    simp [upsertSteps, ha, List.cons_append, ih (fun s hs => h s (List.mem_cons_of_mem a hs))]

theorem upsertSteps_length_of_present (l : List PlanStep) (step : PlanStep)
    (h : ∃ s ∈ l, s.originalInstruction = step.originalInstruction) :
    (upsertSteps l step).length = l.length := by
  have h0 := upsertSteps_keys_of_present l step h
  have h1 : ((upsertSteps l step).map (fun s => s.originalInstruction)).length =
      (l.map (fun s => s.originalInstruction)).length := by rw [h0]
  simpa using h1

theorem upsertSteps_keys_nodup (l : List PlanStep) (step : PlanStep)
    (h : (l.map (fun s => s.originalInstruction)).Nodup) :
    ((upsertSteps l step).map (fun s => s.originalInstruction)).Nodup := by
  by_cases hp : ∃ s ∈ l, s.originalInstruction = step.originalInstruction
  · rw [upsertSteps_keys_of_present l step hp]; exact h
  · push_neg at hp
    rw [upsertSteps_of_absent l step hp]
    simp only [List.map_append, List.map_cons, List.map_nil]
    rw [List.nodup_append]
    refine ⟨h, List.nodup_singleton _, ?_⟩
    intro x hx
    simp only [List.mem_map] at hx
    rcases hx with ⟨s, hs, rfl⟩
    simp only [List.mem_singleton]
    exact fun hEq => hp s hs hEq

theorem upsertPlanStep_keyUnique (plan : ExecutionPlan) (step : PlanStep) (now : String)
    (h : keyUnique plan) : keyUnique (upsertPlanStep plan step now) := by
  unfold keyUnique at h ⊢
  rw [upsertPlanStep_steps]
  exact upsertSteps_keys_nodup plan.steps step h

/-- Claim C4: plan upsert preserves key uniqueness — upserting an existing
`originalInstruction` replaces that step in place with the latest content
winning, upserting a new one appends, any sequence of upserts keeps at most
one step per unique instruction text, and every upsert bumps the plan's
`updatedAt` timestamp. -/
theorem claim4_upsert_key_uniqueness (plan : ExecutionPlan) (step : PlanStep) (now : String) :
    (upsertPlanStep plan step now).updatedAt = now ∧
    findPlanStep (some (upsertPlanStep plan step now)) step.originalInstruction = some step ∧
    (keyUnique plan → keyUnique (upsertPlanStep plan step now)) ∧
    ((∃ s ∈ plan.steps, s.originalInstruction = step.originalInstruction) →
      (upsertPlanStep plan step now).steps.length = plan.steps.length) ∧
    ((∀ s ∈ plan.steps, s.originalInstruction ≠ step.originalInstruction) →
      (upsertPlanStep plan step now).steps = plan.steps ++ [step]) ∧
    (∀ entries : List (PlanStep × String), keyUnique plan →
      keyUnique (entries.foldl (fun p e => upsertPlanStep p e.1 e.2) plan)) := by
  refine ⟨upsertPlanStep_updatedAt plan step now, ?_, upsertPlanStep_keyUnique plan step now,
    ?_, ?_, ?_⟩
  · show (upsertPlanStep plan step now).steps.find?
      (fun s => s.originalInstruction == step.originalInstruction) = some step
    rw [upsertPlanStep_steps]; exact upsertSteps_find plan.steps step
  · intro h; rw [upsertPlanStep_steps]; exact upsertSteps_length_of_present plan.steps step h
  · intro h; rw [upsertPlanStep_steps]; exact upsertSteps_of_absent plan.steps step h
  · intro entries
    induction entries generalizing plan with
    | nil => intro h; exact h
    | cons e rest ih =>
      intro h
      exact ih (upsertPlanStep plan e.1 e.2) (upsertPlanStep_keyUnique plan e.1 e.2 h)

/-- Witness for C4 at concrete inputs: upserting a second step with the same
instruction text but different content over a singleton plan replaces in
place, keeps exactly one step (the latest), and bumps the timestamp. -/
theorem claim4_witness :
    ((upsertPlanStep planI1 stepI1b "t2").updatedAt = "t2" ∧
     findPlanStep (some (upsertPlanStep planI1 stepI1b "t2")) stepI1b.originalInstruction =
       some stepI1b ∧
     (keyUnique planI1 → keyUnique (upsertPlanStep planI1 stepI1b "t2")) ∧
     ((∃ s ∈ planI1.steps, s.originalInstruction = stepI1b.originalInstruction) →
       (upsertPlanStep planI1 stepI1b "t2").steps.length = planI1.steps.length) ∧
     ((∀ s ∈ planI1.steps, s.originalInstruction ≠ stepI1b.originalInstruction) →
       (upsertPlanStep planI1 stepI1b "t2").steps = planI1.steps ++ [stepI1b]) ∧
     (∀ entries : List (PlanStep × String), keyUnique planI1 →
       keyUnique (entries.foldl (fun p e => upsertPlanStep p e.1 e.2) planI1))) ∧
    keyUnique planI1 ∧
    (upsertPlanStep planI1 stepI1b "t2").steps = [stepI1b] :=
  ⟨claim4_upsert_key_uniqueness planI1 stepI1b "t2", by unfold keyUnique; decide, by decide⟩

/-- Claim C3: for every plan action with a recorded anchor, element
resolution equals a first-hit scan over the claimed fixed strategy list
(role-text-ref and its mirror when a role hint is recorded, then text-ref,
then ref-text, then the same two patterns with the element description when
it is recorded and differs), returning the first capturing group of the
first successful pattern and null when every strategy fails; and during
replay a null resolution for a click/fill action is a hard replay failure
for that step. -/
theorem claim3_resolution_order (a : PlanAction) (ht : truthy a.textContent = true) :
    (∀ R page, resolveElementRef R a page =
      (resolveStrategyList a).findSome? (fun p => R.firstCapture p page)) ∧
    (∀ env w ps b, ps.type = "action" → ps.actions.head? = some a →
      (a.type = "click" ∨ a.type = "fill") →
      resolveElementRef env.regex a ((env.readPage w b).1) = none →
      (replayPlanStep env w ps b).1.success = false ∧
      (replayPlanStep env w ps b).1.result.actualResult =
        "Could not find element: " ++ q (a.textContent.getD "")) := by
  constructor
  · intro R page
    unfold resolveElementRef resolveStrategyList
    by_cases hrole : truthy a.role = true
    · simp only [ht, hrole, if_true, not_true, if_neg, if_pos, if_false]
      by_cases helem : truthy a.element = true ∧ a.element.getD "" ≠ a.textContent.getD ""
      · rw [if_pos helem, if_pos helem]
        simp only [List.cons_append, List.nil_append, List.append_nil,
          List.findSome?_cons, List.findSome?_nil]
        generalize R.firstCapture (a.role.getD "" ++ "[^\\n]*" ++
          regexEscape (a.textContent.getD "") ++ "[^\\n]*\\[ref=(\\w+)\\]") page = c1
        generalize R.firstCapture (a.role.getD "" ++ "[^\\n]*\\[ref=(\\w+)\\][^\\n]*" ++
          regexEscape (a.textContent.getD "")) page = c2
        generalize R.firstCapture (regexEscape (a.textContent.getD "") ++
          "[^\\n]*\\[ref=(\\w+)\\]") page = c3
        generalize R.firstCapture ("\\[ref=(\\w+)\\][^\\n]*" ++
          regexEscape (a.textContent.getD "")) page = c4
        generalize R.firstCapture (regexEscape (a.element.getD "") ++
          "[^\\n]*\\[ref=(\\w+)\\]") page = c5
        generalize R.firstCapture ("\\[ref=(\\w+)\\][^\\n]*" ++
          regexEscape (a.element.getD "")) page = c6
        cases c1 <;> cases c2 <;> cases c3 <;> cases c4 <;> cases c5 <;> cases c6 <;> rfl
      · rw [if_neg helem, if_neg helem]
        simp only [List.cons_append, List.nil_append, List.append_nil,
          List.findSome?_cons, List.findSome?_nil]
        generalize R.firstCapture (a.role.getD "" ++ "[^\\n]*" ++
          regexEscape (a.textContent.getD "") ++ "[^\\n]*\\[ref=(\\w+)\\]") page = c1
        generalize R.firstCapture (a.role.getD "" ++ "[^\\n]*\\[ref=(\\w+)\\][^\\n]*" ++
          regexEscape (a.textContent.getD "")) page = c2
        generalize R.firstCapture (regexEscape (a.textContent.getD "") ++
          "[^\\n]*\\[ref=(\\w+)\\]") page = c3
        generalize R.firstCapture ("\\[ref=(\\w+)\\][^\\n]*" ++
          regexEscape (a.textContent.getD "")) page = c4
        cases c1 <;> cases c2 <;> cases c3 <;> cases c4 <;> rfl
    · simp only [ht, hrole, if_true, not_true, if_neg, if_pos, if_false, Bool.false_eq_true]
      by_cases helem : truthy a.element = true ∧ a.element.getD "" ≠ a.textContent.getD ""
      · rw [if_pos helem, if_pos helem]
        simp only [List.cons_append, List.nil_append, List.append_nil,
          List.findSome?_cons, List.findSome?_nil]
        generalize R.firstCapture (regexEscape (a.textContent.getD "") ++
          "[^\\n]*\\[ref=(\\w+)\\]") page = c3
        generalize R.firstCapture ("\\[ref=(\\w+)\\][^\\n]*" ++
          regexEscape (a.textContent.getD "")) page = c4
        generalize R.firstCapture (regexEscape (a.element.getD "") ++
          "[^\\n]*\\[ref=(\\w+)\\]") page = c5
        generalize R.firstCapture ("\\[ref=(\\w+)\\][^\\n]*" ++
          regexEscape (a.element.getD "")) page = c6
        cases c3 <;> cases c4 <;> cases c5 <;> cases c6 <;> rfl
      · rw [if_neg helem, if_neg helem]
        simp only [List.cons_append, List.nil_append, List.append_nil,
          List.findSome?_cons, List.findSome?_nil]
        generalize R.firstCapture (regexEscape (a.textContent.getD "") ++
          "[^\\n]*\\[ref=(\\w+)\\]") page = c3
        generalize R.firstCapture ("\\[ref=(\\w+)\\][^\\n]*" ++
          regexEscape (a.textContent.getD "")) page = c4
        cases c3 <;> cases c4 <;> rfl
  · intro env w ps b hty hhead htype hres
    rcases hacts : ps.actions with _ | ⟨a0, rest⟩
    · rw [hacts] at hhead; simp at hhead
    · rw [hacts] at hhead
      simp only [List.head?_cons, Option.some.injEq] at hhead
      subst hhead
      have hsp : ¬(ps.type = "special" ∧ ps.specialCommand.isSome = true) := by
        rw [hty]; simp
      unfold replayPlanStep
      rw [if_neg hsp, hacts]
      unfold replayActionLoop
      rcases htype with h | h <;>
        simp [h, ht, hres, replayFailure]

theorem replayActionLoop_calls_extend (env : Env) (b : Nat) (oi pc : String) :
    ∀ actions (w : World) (acc : List String) (calls : List PlanAction),
      (∀ w2 acc2 calls2,
        replayActionLoop env b oi pc actions w acc calls = .inl (w2, acc2, calls2) →
        ∃ ext, calls2 = calls ++ ext) ∧
      (∀ w2 out, replayActionLoop env b oi pc actions w acc calls = .inr (w2, out) →
        ∃ ext, out.mcpCalls = calls ++ ext) := by
  intro actions
  induction actions with
  | nil =>
    intro w acc calls
    constructor
    · intro w2 acc2 calls2 h
      simp only [replayActionLoop, Sum.inl.injEq, Prod.mk.injEq] at h
      exact ⟨[], by simp [h.2.2.symm]⟩
    · intro w2 out h
      simp [replayActionLoop] at h
  | cons action rest ih =>
    intro w acc calls
    unfold replayActionLoop
    by_cases h1 : action.type = "memory_store" ∧
        (truthy action.extractionHint = true ∨ truthy action.extractionRegex = true)
    · rw [if_pos h1]
      by_cases hv : ((match (extractDynamicValue env w action.extractionRegex
            action.extractionHint pc b).1 with
          | some v => v ≠ ""
          | none => false) && truthy action.key) = true
      · rw [if_pos hv]; exact ih _ _ _
      · rw [if_neg hv]
        constructor
        · intro w2 acc2 calls2 h; simp at h
        · intro w2 out h
          simp only [Sum.inr.injEq, Prod.mk.injEq] at h
          exact ⟨[], by simp [← h.2, replayFailure]⟩
    · rw [if_neg h1]
      by_cases h2 : action.type = "memory_store" ∧ truthy action.key = true ∧
          truthy action.value = true
      · rw [if_pos h2]; exact ih _ _ _
      · rw [if_neg h2]
        by_cases h3 : action.type = "memory_read" ∧ truthy action.key = true
        · rw [if_pos h3]; exact ih _ _ _
        · rw [if_neg h3]
          by_cases h4 : (action.type = "click" ∨ action.type = "fill") ∧
              truthy action.textContent = true
          · rw [if_pos h4]
            rcases hr : resolveElementRef env.regex action pc with _ | r
            · constructor
              · intro w2 acc2 calls2 h; simp at h
              · intro w2 out h
                simp only [Sum.inr.injEq, Prod.mk.injEq] at h
                exact ⟨[], by simp [← h.2, replayFailure]⟩
            · by_cases he : includesStr (executeMCPAction env w
                  { action with ref := some r } b).1 ("error") = true
              · simp only [he, if_true, if_pos]
                constructor
                · intro w2 acc2 calls2 h; simp at h
                · intro w2 out h
                  simp only [Sum.inr.injEq, Prod.mk.injEq] at h
                  exact ⟨[{ action with ref := some r }], by simp [← h.2, replayFailure]⟩
              · simp only [he, Bool.false_eq_true, if_neg, if_false]
                constructor
                · intro w2 acc2 calls2 h
                  rcases ((ih (executeMCPAction env w { action with ref := some r } b).2
                      (acc ++ [(executeMCPAction env w { action with ref := some r } b).1])
                      (calls ++ [{ action with ref := some r }])).1 w2 acc2 calls2 h) with
                    ⟨ext, hext⟩
                  exact ⟨[{ action with ref := some r }] ++ ext, by simp [hext]⟩
                · intro w2 out h
                  rcases ((ih (executeMCPAction env w { action with ref := some r } b).2
                      (acc ++ [(executeMCPAction env w { action with ref := some r } b).1])
                      (calls ++ [{ action with ref := some r }])).2 w2 out h) with
                    ⟨ext, hext⟩
                  exact ⟨[{ action with ref := some r }] ++ ext, by simp [hext]⟩
          · rw [if_neg h4]
            by_cases he : includesStr (executeMCPAction env w action b).1 ("error") = true
            · simp only [he, if_true, if_pos]
              constructor
              · intro w2 acc2 calls2 h; simp at h
              · intro w2 out h
                simp only [Sum.inr.injEq, Prod.mk.injEq] at h
                exact ⟨[action], by simp [← h.2, replayFailure]⟩
            · simp only [he, Bool.false_eq_true, if_neg, if_false]
              constructor
              · intro w2 acc2 calls2 h
                rcases ((ih (executeMCPAction env w action b).2
                    (acc ++ [(executeMCPAction env w action b).1]) (calls ++ [action])).1
                    w2 acc2 calls2 h) with ⟨ext, hext⟩
                exact ⟨[action] ++ ext, by simp [hext]⟩
              · intro w2 out h
                rcases ((ih (executeMCPAction env w action b).2
                    (acc ++ [(executeMCPAction env w action b).1]) (calls ++ [action])).2
                    w2 out h) with ⟨ext, hext⟩
                exact ⟨[action] ++ ext, by simp [hext]⟩

/-- Witness for C3 at concrete inputs: a click action anchored on the text
`Login`, resolved through an engine in which no pattern captures, so every
strategy fails and replaying the step is a hard failure. -/
theorem claim3_witness :
    truthy clickActW.textContent = true ∧
    resolveElementRef falseEngine clickActW "page" =
      (resolveStrategyList clickActW).findSome?
        (fun p => falseEngine.firstCapture p "page") ∧
    (psW3.type = "action" ∧ psW3.actions.head? = some clickActW ∧
      resolveElementRef envW.regex clickActW ((envW.readPage world0 1).1) = none) ∧
    ((replayPlanStep envW world0 psW3 1).1.success = false ∧
     (replayPlanStep envW world0 psW3 1).1.result.actualResult =
       "Could not find element: " ++ q (clickActW.textContent.getD "")) :=
  ⟨by decide, (claim3_resolution_order clickActW (by decide)).1 falseEngine "page",
   ⟨rfl, rfl, by decide⟩,
   (claim3_resolution_order clickActW (by decide)).2 envW world0 psW3 1 rfl rfl
     (Or.inl rfl) (by decide)⟩

/-- Claim C10: a plan action without a textContent anchor triggers no search
at all — resolution returns the recorded raw reference (null when none or
empty was recorded) independently of the regex engine and of the page — and
during replay an anchorless click/fill action is submitted to the transport
with its stale recorded reference unchanged. -/
theorem claim10_anchorless_resolution (a : PlanAction) (hnt : truthy a.textContent = false) :
    (∀ R page, resolveElementRef R a page = (if truthy a.ref then a.ref else none)) ∧
    (∀ env w ps b, ps.type = "action" → ps.actions.head? = some a →
      (a.type = "click" ∨ a.type = "fill") →
      (replayPlanStep env w ps b).1.mcpCalls.head? = some a) := by
  constructor
  · intro R page
    unfold resolveElementRef
    simp [hnt]
  · intro env w ps b hty hhead htype
    rcases hacts : ps.actions with _ | ⟨a0, rest⟩
    · rw [hacts] at hhead; simp at hhead
    · rw [hacts] at hhead
      simp only [List.head?_cons, Option.some.injEq] at hhead
      have hsp : ¬(ps.type = "special" ∧ ps.specialCommand.isSome = true) := by
        rw [hty]; simp
      unfold replayPlanStep
      rw [if_neg hsp, hacts, hhead]
      unfold replayActionLoop
      have h1 : ¬(a.type = "memory_store" ∧
          (truthy a.extractionHint = true ∨ truthy a.extractionRegex = true)) := by
        rcases htype with h | h <;> simp [h]
      have h2 : ¬(a.type = "memory_store" ∧ truthy a.key = true ∧ truthy a.value = true) := by
        rcases htype with h | h <;> simp [h]
      have h3 : ¬(a.type = "memory_read" ∧ truthy a.key = true) := by
        rcases htype with h | h <;> simp [h]
      have h4 : ¬((a.type = "click" ∨ a.type = "fill") ∧ truthy a.textContent = true) := by
        simp [hnt]
      simp only [if_neg h1, if_neg h2, if_neg h3, if_neg h4, List.nil_append]
      by_cases he : includesStr (executeMCPAction env (env.readPage w b).2 a b).1 ("error") = true
      · simp [he, replayFailure]
      · simp only [he, Bool.false_eq_true, if_neg, if_false]
        rcases hloop : replayActionLoop env b ps.originalInstruction ((env.readPage w b).1) rest
            (executeMCPAction env (env.readPage w b).2 a b).2
            [(executeMCPAction env (env.readPage w b).2 a b).1] [a] with
          ⟨w1, ex, calls2⟩ | ⟨w1, out⟩
        · rcases ((replayActionLoop_calls_extend env b ps.originalInstruction
              ((env.readPage w b).1) rest
              (executeMCPAction env (env.readPage w b).2 a b).2
              [(executeMCPAction env (env.readPage w b).2 a b).1] [a]).1 w1 ex calls2
              hloop) with ⟨ext, hext⟩
          rcases hver : ps.verification with _ | v <;> simp [hloop, hver, hext]
        · rcases ((replayActionLoop_calls_extend env b ps.originalInstruction
              ((env.readPage w b).1) rest
              (executeMCPAction env (env.readPage w b).2 a b).2
              [(executeMCPAction env (env.readPage w b).2 a b).1] [a]).2 w1 out
              hloop) with ⟨ext, hext⟩
          simp [hloop, hext]

/-- Witness for C10 at concrete inputs: an anchorless click action keeps its
stale recorded reference through resolution and replay. -/
theorem claim10_witness :
    truthy anchorlessW.textContent = false ∧
    resolveElementRef falseEngine anchorlessW "page" =
      (if truthy anchorlessW.ref then anchorlessW.ref else none) ∧
    (psW10.type = "action" ∧ psW10.actions.head? = some anchorlessW) ∧
    (replayPlanStep envW world0 psW10 1).1.mcpCalls.head? = some anchorlessW :=
  ⟨by decide, (claim10_anchorless_resolution anchorlessW (by decide)).1 falseEngine "page",
   ⟨rfl, rfl⟩,
   (claim10_anchorless_resolution anchorlessW (by decide)).2 envW world0 psW10 1 rfl rfl
     (Or.inl rfl)⟩

/-- Claim C8: during test-file parsing, a malformed line — one whose
post-routing-tag remainder contains the step separator but whose instruction
part or expected-result part is empty after trimming — contributes no step
and never makes parsing fail: parsing the file continues exactly as if the
line were not there, whatever the include-expansion continuation is. -/
theorem claim8_malformed_line_dropped (fsys : FileSys)
    (inner : String → String → PState → Option (PState × Except Unit (List TestStep)))
    (line : String) (rest : List String) (baseDir : String) (st : PState)
    (hne : jsTrim line ≠ "")
    (hinc : isIncludeLine (jsTrim line) = none)
    (hsep : includesStr (parseBrowserTarget (jsTrim line)).2 (">>>") = true)
    (hbad : (((splitOnStr (parseBrowserTarget (jsTrim line)).2 (">>>")).map jsTrim).getD 0 "" = "" ∨
             ((splitOnStr (parseBrowserTarget (jsTrim line)).2 (">>>")).map jsTrim).getD 1 "" = "")) :
    parseLinesWith fsys inner (line :: rest) baseDir st =
      parseLinesWith fsys inner rest baseDir st := by
  have hstep : parseStepLine (jsTrim line) = none := by
    unfold parseStepLine
    rcases hbad with h | h <;> (simp at h ⊢; simp [hsep, h])
  conv_lhs => rw [parseLinesWith]
  simp only [if_neg hne, hinc, hstep]

/-- Witness for C8 at concrete inputs: a line with an empty instruction part
is dropped while the well-formed following line still parses. -/
theorem claim8_witness :
    (jsTrim (" >>> ok") ≠ "" ∧
     isIncludeLine (jsTrim (" >>> ok")) = none ∧
     includesStr (parseBrowserTarget (jsTrim (" >>> ok"))).2 (">>>") = true ∧
     (((splitOnStr (parseBrowserTarget (jsTrim (" >>> ok"))).2 (">>>")).map jsTrim).getD 0 "" = "" ∨
      ((splitOnStr (parseBrowserTarget (jsTrim (" >>> ok"))).2 (">>>")).map jsTrim).getD 1 "" = "")) ∧
    parseLinesWith emptyFS (parseTestFileContent emptyFS 0) ([" >>> ok", "a >>> b"]) "." pstate0 =
      parseLinesWith emptyFS (parseTestFileContent emptyFS 0) (["a >>> b"]) "." pstate0 ∧
    parseLinesWith emptyFS (parseTestFileContent emptyFS 0) ([" >>> ok", "a >>> b"]) "." pstate0 =
      some (pstate0,
        [{ instruction := "a", expectedResult := "b", delay := 200, browserNum := 1 }]) :=
  ⟨⟨by decide, by decide, by decide, Or.inl (by decide)⟩,
   claim8_malformed_line_dropped emptyFS (parseTestFileContent emptyFS 0)
     (" >>> ok") (["a >>> b"]) "." pstate0
     (by decide) (by decide) (by decide) (Or.inl (by decide)),
   by decide⟩

theorem parseLinesWith_visited_mono (fsys : FileSys)
    (inner : String → String → PState → Option (PState × Except Unit (List TestStep)))
    (hinner : ∀ p b st out, inner p b st = some out → st.visited ⊆ out.1.visited) :
    ∀ lines baseDir st out, parseLinesWith fsys inner lines baseDir st = some out →
      st.visited ⊆ out.1.visited := by
  intro lines
  induction lines with
  | nil =>
    intro b st out h
    simp only [parseLinesWith, Option.some.injEq] at h
    rw [← h]
    exact fun x hx => hx
  | cons line rest ih =>
    intro b st out h
    simp only [parseLinesWith] at h
    by_cases htr : jsTrim line = ""
    · rw [if_pos htr] at h; exact ih b st out h
    · rw [if_neg htr] at h
      rcases hincl : isIncludeLine (jsTrim line) with _ | name
      · simp only [hincl] at h
        rcases hps : parseStepLine (jsTrim line) with _ | stp
        · simp only [hps] at h; exact ih b st out h
        · simp only [hps] at h
          rcases hrec : parseLinesWith fsys inner rest b st with _ | pr
          · simp only [hrec] at h; simp at h
          · simp only [hrec, Option.some.injEq] at h
            rw [← h]
            exact ih b st pr hrec
      · simp only [hincl] at h
        rcases hin : inner (fsys.resolveIn b name)
            (fsys.dirname (fsys.resolveIn b name)) st with _ | q
        · simp only [hin] at h; simp at h
        · simp only [hin] at h
          rcases q with ⟨st1, res⟩
          have hsub1 : st.visited ⊆ st1.visited := hinner _ _ _ _ hin
          rcases res with e | steps
          · exact fun x hx => ih b st1 out h (hsub1 hx)
          · rcases hrec : parseLinesWith fsys inner rest b st1 with _ | pr
            · simp only [hrec] at h; simp at h
            · simp only [hrec, Option.some.injEq] at h
              rw [← h]
              exact fun x hx => ih b st1 pr hrec (hsub1 hx)

theorem parseTestFileContent_visited (fsys : FileSys) :
    ∀ fuel filePath baseDir st out,
      parseTestFileContent fsys fuel filePath baseDir st = some out →
      st.visited ⊆ out.1.visited ∧ fsys.resolve1 filePath ∈ out.1.visited := by
  intro fuel
  induction fuel with
  | zero => intro p b st out h; simp [parseTestFileContent] at h
  | succ fuel ih =>
    intro p b st out h
    simp only [parseTestFileContent] at h
    by_cases hv : fsys.resolve1 p ∈ st.visited
    · rw [if_pos hv] at h
      simp only [Option.some.injEq] at h
      rw [← h]
      exact ⟨fun x hx => hx, hv⟩
    · rw [if_neg hv] at h
      rcases hr : fsys.read p with _ | content
      · simp only [hr, Option.some.injEq] at h
        rw [← h]
        exact ⟨fun x hx => List.mem_cons_of_mem _ hx, List.mem_cons_self _ _⟩
      · simp only [hr] at h
        rcases hl : parseLinesWith fsys (parseTestFileContent fsys fuel)
            (splitOnStr content ("\n")) b
            { st with visited := fsys.resolve1 p :: st.visited } with _ | pr
        · simp only [hl] at h; simp at h
        · simp only [hl, Option.some.injEq] at h
          rw [← h]
          have hmono := parseLinesWith_visited_mono fsys (parseTestFileContent fsys fuel)
            (fun p2 b2 st2 out2 hh => (ih p2 b2 st2 out2 hh).1)
            (splitOnStr content ("\n")) b
            { st with visited := fsys.resolve1 p :: st.visited } pr hl
          refine ⟨fun x hx => hmono (List.mem_cons_of_mem _ hx), ?_⟩
          exact hmono (List.mem_cons_self _ _)

theorem parseTestFileContent_skip (fsys : FileSys) (fuel : Nat) (filePath baseDir : String)
    (st : PState) (hv : fsys.resolve1 filePath ∈ st.visited) :
    parseTestFileContent fsys (fuel + 1) filePath baseDir st =
      some ({ st with warnings := st.warnings ++ [cycleWarning filePath] }, .ok []) := by
  simp only [parseTestFileContent]
  rw [if_pos hv]

theorem length_filter_mono {α : Type} {p q : α → Bool} (h : ∀ x, p x = true → q x = true) :
    ∀ l : List α, (l.filter p).length ≤ (l.filter q).length := by
  intro l
  induction l with
  | nil => simp
  | cons a rest ih =>
    simp only [List.filter_cons]
    by_cases hpa : p a = true
    · rw [if_pos hpa, if_pos (h a hpa)]
      simpa using ih
    · rw [if_neg hpa]
      by_cases hqa : q a = true
      · rw [if_pos hqa]
        simp only [List.length_cons]
        omega
      · rw [if_neg hqa]
        exact ih

theorem remainingFiles_anti (dom : List String) (st st2 : PState)
    (h : st.visited ⊆ st2.visited) : remainingFiles dom st2 ≤ remainingFiles dom st := by
  unfold remainingFiles
  refine length_filter_mono ?_ dom
  intro x hx
  simp only [List.contains, Bool.not_eq_true', List.elem_eq_mem,
    decide_eq_false_iff_not] at hx ⊢
  exact fun hc => hx (h hc)

theorem remainingFiles_cons_lt (dom : List String) (st : PState) (a : String)
    (ha : a ∈ dom) (hv : a ∉ st.visited) :
    remainingFiles dom { st with visited := a :: st.visited } < remainingFiles dom st := by
  unfold remainingFiles
  have hmono : ∀ l : List String,
      (l.filter (fun p => !((a :: st.visited).contains p))).length ≤
      (l.filter (fun p => !(st.visited.contains p))).length := by
    intro l
    refine length_filter_mono ?_ l
    intro x hx
    simp only [List.contains, Bool.not_eq_true', List.elem_eq_mem,
      decide_eq_false_iff_not, List.mem_cons] at hx ⊢
    exact fun hc => hx (Or.inr hc)
  have key : ∀ dom2 : List String, a ∈ dom2 →
      (dom2.filter (fun p => !((a :: st.visited).contains p))).length <
      (dom2.filter (fun p => !(st.visited.contains p))).length := by
    intro dom2
    induction dom2 with
    | nil => intro ha2; cases ha2
    | cons d rest ih =>
      intro ha2
      simp only [List.filter_cons]
      by_cases hda : d = a
      · subst hda
        have h1 : (!((d :: st.visited).contains d)) = false := by
          simp [List.contains]
        have h2 : (!(st.visited.contains d)) = true := by
          simp [List.contains, hv]
        rw [h1, h2]
        have hle := hmono rest
        rw [if_neg Bool.false_ne_true, if_pos (rfl : true = true)]
        simp only [List.length_cons]
        omega
      · have hmem : a ∈ rest := by
          rcases List.mem_cons.mp ha2 with h2 | h2
          · exact absurd h2.symm hda
          · exact h2
        have heq : (!((a :: st.visited).contains d)) = (!(st.visited.contains d)) := by
          simp [List.contains, List.mem_cons, hda]
        rw [heq]
        have ihm := ih hmem
        by_cases hd2 : (!(st.visited.contains d)) = true
        · rw [if_pos hd2, if_pos hd2]
          simp only [List.length_cons]
          omega
        · rw [if_neg hd2, if_neg hd2]
          exact ihm
  exact key dom ha

theorem parseLinesWith_total (fsys : FileSys) (dom : List String) (fuel : Nat)
    (inner : String → String → PState → Option (PState × Except Unit (List TestStep)))
    (hinner_total : ∀ p b st, remainingFiles dom st < fuel → inner p b st ≠ none)
    (hinner_mono : ∀ p b st out, inner p b st = some out → st.visited ⊆ out.1.visited) :
    ∀ lines baseDir st, remainingFiles dom st < fuel →
      parseLinesWith fsys inner lines baseDir st ≠ none := by
  intro lines
  induction lines with
  | nil => intro b st hb; simp [parseLinesWith]
  | cons line rest ih =>
    intro b st hb
    simp only [parseLinesWith]
    by_cases htr : jsTrim line = ""
    · rw [if_pos htr]; exact ih b st hb
    · rw [if_neg htr]
      rcases hincl : isIncludeLine (jsTrim line) with _ | name
      · simp only [hincl]
        rcases hps : parseStepLine (jsTrim line) with _ | stp
        · simp only [hps]; exact ih b st hb
        · simp only [hps]
          rcases hrec : parseLinesWith fsys inner rest b st with _ | pr
          · exact absurd hrec (ih b st hb)
          · simp [hrec]
      · simp only [hincl]
        rcases hin : inner (fsys.resolveIn b name)
            (fsys.dirname (fsys.resolveIn b name)) st with _ | q
        · exact absurd hin (hinner_total _ _ _ hb)
        · rcases q with ⟨st1, res⟩
          have hb1 : remainingFiles dom st1 < fuel :=
            Nat.lt_of_le_of_lt (remainingFiles_anti dom st st1 (hinner_mono _ _ _ _ hin)) hb
          rcases res with e | steps
          · exact ih b st1 hb1
          · rcases hrec : parseLinesWith fsys inner rest b st1 with _ | pr
            · exact absurd hrec (ih b st1 hb1)
            · simp [hrec]

theorem parseTestFileContent_total (fsys : FileSys) (dom : List String)
    (hdom : ∀ p, (fsys.read p).isSome → fsys.resolve1 p ∈ dom) :
    ∀ fuel filePath baseDir st, remainingFiles dom st < fuel →
      parseTestFileContent fsys fuel filePath baseDir st ≠ none := by
  intro fuel
  induction fuel with
  | zero => intro p b st hb; omega
  | succ fuel ih =>
    intro p b st hb
    simp only [parseTestFileContent]
    by_cases hv : fsys.resolve1 p ∈ st.visited
    · rw [if_pos hv]; simp
    · rw [if_neg hv]
      rcases hr : fsys.read p with _ | content
      · simp only [hr]; simp
      · simp only [hr]
        have habs : fsys.resolve1 p ∈ dom := hdom p (by rw [hr]; rfl)
        have hlt : remainingFiles dom { st with visited := fsys.resolve1 p :: st.visited } <
            fuel := by
          have h1 := remainingFiles_cons_lt dom st (fsys.resolve1 p) habs hv
          omega
        have hl := parseLinesWith_total fsys dom fuel (parseTestFileContent fsys fuel)
          (fun p2 b2 st2 hb2 => ih p2 b2 st2 hb2)
          (fun p2 b2 st2 out2 hh => (parseTestFileContent_visited fsys fuel p2 b2 st2 out2 hh).1)
          (splitOnStr content ("\n")) b
          { st with visited := fsys.resolve1 p :: st.visited } hlt
        rcases hres : parseLinesWith fsys (parseTestFileContent fsys fuel)
            (splitOnStr content ("\n")) b
            { st with visited := fsys.resolve1 p :: st.visited } with _ | pr
        · exact absurd hres hl
        · simp [hres]

/-- Claim C5: recursive scenario parsing with a cyclic include graph
terminates with a finite step list and a warning rather than recursing
infinitely — whenever the include-depth fuel exceeds the number of
still-unvisited readable files the parser never exhausts it (the formal
termination argument), and an include of an already-visited absolute path
returns no steps and appends the circular-include warning, non-fatally. -/
theorem claim5_cycle_safety (fsys : FileSys) (dom : List String)
    (hdom : ∀ p, (fsys.read p).isSome → fsys.resolve1 p ∈ dom) :
    (∀ fuel filePath baseDir st, remainingFiles dom st < fuel →
       parseTestFileContent fsys fuel filePath baseDir st ≠ none) ∧
    (∀ fuel filePath baseDir st, fsys.resolve1 filePath ∈ st.visited →
       parseTestFileContent fsys (fuel + 1) filePath baseDir st =
         some ({ st with warnings := st.warnings ++ [cycleWarning filePath] }, .ok [])) :=
  ⟨parseTestFileContent_total fsys dom hdom,
   fun fuel filePath baseDir st hv => parseTestFileContent_skip fsys fuel filePath baseDir st hv⟩

/-- Witness for C5 at concrete inputs: two files including each other parse
to a finite step list with a cycle warning. -/
theorem claim5_witness :
    (∀ p, (cycFS.read p).isSome → cycFS.resolve1 p ∈ (["a.txt", "b.txt"] : List String)) ∧
    remainingFiles (["a.txt", "b.txt"]) pstate0 < 3 ∧
    parseTestFileContent cycFS 3 ("a.txt") "." pstate0 ≠ none ∧
    parseTestFileContent cycFS 1 ("a.txt") "."
        { visited := ["a.txt"], warnings := [] } =
      some ({ visited := ["a.txt"], warnings := [cycleWarning ("a.txt")] }, .ok []) ∧
    parseTestFile cycFS 3 ("a.txt") =
      some ({ visited := ["b.txt", "a.txt"],
              warnings := [cycleWarning ("a.txt")] },
        .ok [{ instruction := "baz", expectedResult := "qux", delay := 200, browserNum := 1 },
             { instruction := "foo", expectedResult := "bar", delay := 200, browserNum := 1 }]) := by
  have hdom : ∀ p, (cycFS.read p).isSome → cycFS.resolve1 p ∈ (["a.txt", "b.txt"] : List String) := by
    intro p hp
    by_cases h1 : p = "a.txt"
    · subst h1; decide
    · by_cases h2 : p = "b.txt"
      · subst h2; decide
      · exfalso
        simp only [cycFS, if_neg h1, if_neg h2] at hp
        simp at hp
  refine ⟨hdom, by decide, ?_, ?_, by decide⟩
  · exact (claim5_cycle_safety cycFS (["a.txt", "b.txt"]) hdom).1 3 ("a.txt") "." pstate0
      (by decide)
  · exact (claim5_cycle_safety cycFS (["a.txt", "b.txt"]) hdom).2 0 ("a.txt") "."
      { visited := ["a.txt"], warnings := [] } (by decide)

/-- Claim C9: the include visited-set is shared across the whole expansion,
not per branch — every successful parse of a file leaves its resolved path
in the visited set, the visited set only ever grows through the per-line
loop (for any include continuation that itself only grows it), and any
later include whose resolved path is already in the set contributes zero
steps, so a non-cyclic repeated include yields the shared file contents only
the first time. -/
theorem claim9_shared_visited_set (fsys : FileSys) :
    (∀ fuel filePath baseDir st out,
       parseTestFileContent fsys fuel filePath baseDir st = some out →
       st.visited ⊆ out.1.visited ∧ fsys.resolve1 filePath ∈ out.1.visited) ∧
    (∀ inner lines baseDir st out,
       (∀ p b st2 out2, inner p b st2 = some out2 → st2.visited ⊆ out2.1.visited) →
       parseLinesWith fsys inner lines baseDir st = some out →
       st.visited ⊆ out.1.visited) ∧
    (∀ fuel filePath baseDir st, fsys.resolve1 filePath ∈ st.visited →
       parseTestFileContent fsys (fuel + 1) filePath baseDir st =
         some ({ st with warnings := st.warnings ++ [cycleWarning filePath] }, .ok [])) :=
  ⟨fun fuel filePath baseDir st out h =>
     parseTestFileContent_visited fsys fuel filePath baseDir st out h,
   fun inner lines baseDir st out hmono h =>
     parseLinesWith_visited_mono fsys inner hmono lines baseDir st out h,
   fun fuel filePath baseDir st hv =>
     parseTestFileContent_skip fsys fuel filePath baseDir st hv⟩

/-- Witness for C9 at concrete inputs: a file including the same second file
twice contributes that file's steps exactly once (the second include is
skipped through the shared visited set). -/
theorem claim9_witness :
    (parseTestFileContent repFS 2 ("b.txt") "." pstate0 =
       some ({ visited := ["b.txt"], warnings := [] },
         .ok [{ instruction := "hello", expectedResult := "world", delay := 200,
                browserNum := 1 }]) →
     pstate0.visited ⊆ (["b.txt"] : List String) ∧
       repFS.resolve1 ("b.txt") ∈ (["b.txt"] : List String)) ∧
    (repFS.resolve1 ("b.txt") ∈ (["b.txt", "a.txt"] : List String) →
     parseTestFileContent repFS 2 ("b.txt") "."
         { visited := ["b.txt", "a.txt"], warnings := [] } =
       some ({ visited := ["b.txt", "a.txt"], warnings := [cycleWarning ("b.txt")] },
         .ok [])) ∧
    parseTestFile repFS 3 ("a.txt") =
      some ({ visited := ["b.txt", "a.txt"],
              warnings := [cycleWarning ("b.txt")] },
        .ok [{ instruction := "hello", expectedResult := "world", delay := 200, browserNum := 1 },
             { instruction := "x", expectedResult := "y", delay := 200, browserNum := 1 }]) :=
  ⟨fun h => (claim9_shared_visited_set repFS).1 2 ("b.txt") "." pstate0 _ h,
   fun _ => (claim9_shared_visited_set repFS).2.2 1 ("b.txt") "."
     { visited := ["b.txt", "a.txt"], warnings := [] } (by decide),
   by decide⟩

theorem runSingleStepLearning_failCount (env : Env) (w : World) (instruction : String)
    (b : Nat) : (runSingleStepLearning env w instruction b).1.2.failCount = 0 := by
  simp only [runSingleStepLearning]
  split <;> rfl

/-- Counterexample to C6 as stated: a learning pass that is not a replay
fallback and whose verification fails (the step result is unsuccessful)
still produces an updated plan step with failure counter 0, and re-saving it
through the caller's upsert overwrites a stored counter of 5 with 0 — so a
successful learn is not the only way the counter resets. -/
theorem claim6_counterexample :
    (runSingleStepWithPlan envW 2 world0 "do x >>> expected" 1 none true none).1.result.success
      = false ∧
    ((runSingleStepWithPlan envW 2 world0 "do x >>> expected" 1 none true
        none).1.updatedPlanStep.map (fun p => p.failCount)) = some 0 ∧
    (runSingleStepWithPlan envW 2 world0 "do x >>> expected" 1 none true none).1.planUpdated
      = true ∧
    stepC6.failCount = 5 ∧
    ((findPlanStep
      (some (upsertPlanStep planC6
        { ((runSingleStepWithPlan envW 2 world0 "do x >>> expected" 1 none true
            none).1.updatedPlanStep.getD stepI1) with
          originalInstruction := jsTrim ("do x >>> expected") } ("t9")))
      (jsTrim ("do x >>> expected"))).map (fun p => p.failCount)) = some 0 := by
  refine ⟨by decide, by decide, by decide, by decide, by decide⟩

/-- Claim C6 (amended): when replaying a learned plan step fails, the
orchestrator falls back to a fresh learning pass and the re-saved step's
failure counter is exactly the previous counter plus one; any learning pass
that is not a replay fallback — whether or not its verification succeeds —
produces a step with failure counter 0; and no other path of
`runSingleStepWithPlan` produces an updated plan step at all. -/
theorem claim6_failcount_amended (env : Env) (mr : Nat) (w : World) (instruction : String)
    (b : Nat) (plan : Option ExecutionPlan) (key : Option String) :
    ((runSingleStepWithPlan env mr w instruction b plan true key).1.planUpdated = true ∧
     ∃ nps, (runSingleStepWithPlan env mr w instruction b plan true key).1.updatedPlanStep =
         some nps ∧ nps.failCount = 0) ∧
    (∀ ps, findPlanStep plan (jsOr key (jsTrim instruction)) = some ps →
      truthy ps.learnedAt = true →
      (replayPlanStep env w ps b).1.success = false →
      (runSingleStepWithPlan env mr w instruction b plan false key).1.planUpdated = true ∧
      ∃ nps,
        (runSingleStepWithPlan env mr w instruction b plan false key).1.updatedPlanStep =
          some nps ∧ nps.failCount = ps.failCount + 1) ∧
    (∀ ps, findPlanStep plan (jsOr key (jsTrim instruction)) = some ps →
      truthy ps.learnedAt = true →
      (replayPlanStep env w ps b).1.success = true →
      (runSingleStepWithPlan env mr w instruction b plan false key).1.updatedPlanStep = none ∧
      (runSingleStepWithPlan env mr w instruction b plan false key).1.planUpdated = false) ∧
    (findPlanStep plan (jsOr key (jsTrim instruction)) = none →
      (runSingleStepWithPlan env mr w instruction b plan false key).1.updatedPlanStep = none ∧
      (runSingleStepWithPlan env mr w instruction b plan false key).1.planUpdated = false) := by
  refine ⟨?_, ?_, ?_, ?_⟩
  · constructor
    · simp [runSingleStepWithPlan]
    · refine ⟨(runSingleStepLearning env w instruction b).1.2, ?_, ?_⟩
      · simp [runSingleStepWithPlan]
      · exact runSingleStepLearning_failCount env w instruction b
  · intro ps hfind hlearned hfail
    unfold runSingleStepWithPlan
    simp only [hfind, Bool.false_eq_true, if_neg, if_false]
    rw [if_pos hlearned]
    simp only [hfail, Bool.false_eq_true, if_neg, if_false]
    constructor
    · trivial
    · exact ⟨_, rfl, rfl⟩
  · intro ps hfind hlearned hok
    unfold runSingleStepWithPlan
    simp only [hfind, Bool.false_eq_true, if_neg, if_false]
    rw [if_pos hlearned]
    simp only [hok, if_true, if_pos]
    constructor <;> trivial
  · intro hfind
    unfold runSingleStepWithPlan
    simp only [hfind, Bool.false_eq_true, if_neg, if_false]
    constructor <;> trivial

/-- Witness for the amended C6 at concrete inputs: a stored step with
failure counter 4 whose anchor cannot be resolved is re-learned with
counter 5, and a fresh learning pass yields counter 0. -/
theorem claim6_witness :
    (findPlanStep (some plan3) (jsOr (some "click login >>> ok") (jsTrim ("click login"))) =
       some psW3 ∧
     truthy psW3.learnedAt = true ∧
     (replayPlanStep envW world0 psW3 1).1.success = false ∧
     psW3.failCount = 4) ∧
    ((runSingleStepWithPlan envW 2 world0 "click login" 1 (some plan3) false
        (some "click login >>> ok")).1.planUpdated = true ∧
     ∃ nps,
       (runSingleStepWithPlan envW 2 world0 "click login" 1 (some plan3) false
         (some "click login >>> ok")).1.updatedPlanStep = some nps ∧
       nps.failCount = psW3.failCount + 1) ∧
    ((runSingleStepWithPlan envW 2 world0 "click login" 1 (some plan3) true
        (some "click login >>> ok")).1.planUpdated = true ∧
     ∃ nps,
       (runSingleStepWithPlan envW 2 world0 "click login" 1 (some plan3) true
         (some "click login >>> ok")).1.updatedPlanStep = some nps ∧ nps.failCount = 0) :=
  ⟨⟨by decide, by decide, by decide, by decide⟩,
   (claim6_failcount_amended envW 2 world0 "click login" 1 (some plan3)
     (some "click login >>> ok")).2.1 psW3 (by decide) (by decide) (by decide),
   (claim6_failcount_amended envW 2 world0 "click login" 1 (some plan3)
     (some "click login >>> ok")).1⟩

theorem filter_eq_of_filter_ne (l : List TestResult) (i : Nat) :
    (l.filter (fun r => !(r.stepIndex == i))).filter (fun r => r.stepIndex == i) = [] := by
  induction l with
  | nil => rfl
  | cons r rest ih =>
    by_cases h : r.stepIndex = i
    · simp [List.filter_cons, h, ih]
    · simp [List.filter_cons, h, ih]

theorem filter_ne_idem (l : List TestResult) (i : Nat) :
    (l.filter (fun r => !(r.stepIndex == i))).filter (fun r => !(r.stepIndex == i)) =
      l.filter (fun r => !(r.stepIndex == i)) := by
  induction l with
  | nil => rfl
  | cons r rest ih =>
    by_cases h : r.stepIndex = i
    · simp [List.filter_cons, h, ih]
    · simp [List.filter_cons, h, ih]

theorem stepSucceeded_last (st : TestState) (l : List TestResult) (r : TestResult) (i : Nat)
    (h : st.results = l.filter (fun r2 => !(r2.stepIndex == i)) ++ [r]) (hr : r.stepIndex = i) :
    stepSucceeded st i = r.success := by
  unfold stepSucceeded
  rw [h, List.filter_append, filter_eq_of_filter_ne, List.nil_append]
  simp [hr]

theorem stepApp_fail (env : Env) (steps : List TestStep) (i : Nat) (hi : i < steps.length)
    (hne : (steps.get ⟨i, hi⟩).expectedResult ≠ "__AUTO_PASS__")
    (hfail : ∀ w page,
      (verifyExpectedResult env w ((steps.get ⟨i, hi⟩).expectedResult) page).1.success = false) :
    ∀ (w : World) (s : TestState), s.testSteps = steps → s.currentStepIndex = i →
      (stepApp env w s).2.testSteps = steps ∧
      (stepApp env w s).2.currentStepIndex = i ∧
      (stepApp env w s).2.shouldContinue = false ∧
      ∃ r : TestResult, (stepApp env w s).2.results = s.results ++ [r] ∧
        r.stepIndex = i ∧ r.success = false := by
  intro w s hts hci
  have hgd : steps.getD i defaultTestStep = steps.get ⟨i, hi⟩ := by
    rw [List.getD_eq_getElem?_getD, List.getElem?_eq_getElem hi]
    rfl
  simp only [stepApp, readPageNode, executeStepNode, verifyStepNode, hts, hci, hgd]
  rw [if_neg hne]
  simp only [hfail]
  exact ⟨trivial, trivial, trivial, ⟨_, rfl, rfl, rfl⟩⟩

theorem retryGo_fail (env : Env) (steps : List TestStep) (i : Nat) (hi : i < steps.length)
    (hne : (steps.get ⟨i, hi⟩).expectedResult ≠ "__AUTO_PASS__")
    (hfail : ∀ w page,
      (verifyExpectedResult env w ((steps.get ⟨i, hi⟩).expectedResult) page).1.success = false) :
    ∀ (fuel : Nat) (w : World) (last : TestState),
      last.testSteps = steps → last.currentStepIndex = i →
      (runStepWithRetryGo env i fuel w last).attempts = fuel ∧
      (runStepWithRetryGo env i fuel w last).inputs.length = fuel ∧
      (∀ s2 ∈ (runStepWithRetryGo env i fuel w last).inputs,
        s2.results = last.results.filter (fun r => !(r.stepIndex == i))) ∧
      (runStepWithRetryGo env i fuel w last).state.testSteps = steps ∧
      (runStepWithRetryGo env i fuel w last).state.currentStepIndex = i ∧
      (fuel = 0 → (runStepWithRetryGo env i fuel w last).state = last) ∧
      (0 < fuel →
        (runStepWithRetryGo env i fuel w last).state.shouldContinue = false ∧
        ∃ r, (runStepWithRetryGo env i fuel w last).state.results =
            last.results.filter (fun r2 => !(r2.stepIndex == i)) ++ [r] ∧
          r.stepIndex = i ∧ r.success = false) := by
  intro fuel
  induction fuel with
  | zero =>
    intro w last hts hci
    exact ⟨rfl, rfl, fun s2 hs2 => absurd hs2 (List.not_mem_nil s2), hts, hci,
      fun _ => rfl, fun h0 => absurd h0 (by omega)⟩
  | succ fuel ih =>
    intro w last hts hci
    have hsa : ({ last with
        results := last.results.filter (fun r => !(r.stepIndex == i)) } : TestState).testSteps =
        steps := hts
    have hsa2 : ({ last with
        results := last.results.filter (fun r => !(r.stepIndex == i)) } : TestState).currentStepIndex =
        i := hci
    obtain ⟨hT, hC, hSC, r, hres, hri, hrs⟩ := stepApp_fail env steps i hi hne hfail w
      { last with results := last.results.filter (fun r => !(r.stepIndex == i)) } hsa hsa2
    have hsucc : stepSucceeded (stepApp env w
        { last with results := last.results.filter (fun r => !(r.stepIndex == i)) }).2 i =
        false := by
      rw [stepSucceeded_last _ last.results r i (by simpa using hres) hri]
      exact hrs
    have hfilter : (stepApp env w
        { last with results := last.results.filter (fun r => !(r.stepIndex == i)) }).2.results.filter
          (fun r2 => !(r2.stepIndex == i)) =
        last.results.filter (fun r2 => !(r2.stepIndex == i)) := by
      rw [hres]
      simp only [List.filter_append, filter_ne_idem]
      simp [List.filter_cons, hri]
    obtain ⟨ihA, ihL, ihI, ihT, ihC, ihZ, ihP⟩ := ih
      (stepApp env w { last with results := last.results.filter (fun r => !(r.stepIndex == i)) }).1
      (stepApp env w { last with results := last.results.filter (fun r => !(r.stepIndex == i)) }).2
      hT hC
    simp only [runStepWithRetryGo, hsucc, Bool.false_eq_true, if_neg, if_false]
    refine ⟨by rw [ihA], by simp [ihL], ?_, ihT, ihC, fun h0 => absurd h0 (by omega), ?_⟩
    · intro s2 hs2
      rcases List.mem_cons.mp hs2 with rfl | hmem
      · rfl
      · rw [ihI s2 hmem, hfilter]
    · intro hpos
      rcases Nat.eq_zero_or_pos fuel with hf0 | hfpos
      · subst hf0
        rw [ihZ rfl]
        exact ⟨hSC, r, by simpa using hres, hri, hrs⟩
      · obtain ⟨hSC2, r2, hres2, hri2, hrs2⟩ := ihP hfpos
        rw [hfilter] at hres2
        exact ⟨hSC2, r2, hres2, hri2, hrs2⟩

/-- Claim C2: with maxRetries 2 and a step whose verification fails on every
attempt, the per-step pipeline is invoked exactly 3 times (1 initial try and
2 retries), each invocation receiving a state from which only that step's
prior result entries have been discarded (earlier steps' results preserved),
and after the final failed attempt the suite loop halts: the step loop at
that index returns the retry outcome directly, which holds exactly one
failed result entry for that step and lets no subsequent step run. -/
theorem claim2_retry_bound (env : Env) (steps : List TestStep) (i : Nat) (w0 : World)
    (st0 : TestState) (hi : i < steps.length)
    (hne : (steps.get ⟨i, hi⟩).expectedResult ≠ "__AUTO_PASS__")
    (hfail : ∀ w page,
      (verifyExpectedResult env w ((steps.get ⟨i, hi⟩).expectedResult) page).1.success = false)
    (hst : st0.testSteps = steps) :
    (runStepWithRetry env 2 i w0
        { st0 with
          currentStepIndex := i, browserNum := (steps.get ⟨i, hi⟩).browserNum }).attempts = 3 ∧
    (runStepWithRetry env 2 i w0
        { st0 with
          currentStepIndex := i, browserNum := (steps.get ⟨i, hi⟩).browserNum }).inputs.length = 3 ∧
    (∀ s2 ∈ (runStepWithRetry env 2 i w0
        { st0 with
          currentStepIndex := i, browserNum := (steps.get ⟨i, hi⟩).browserNum }).inputs,
      s2.results = st0.results.filter (fun r => !(r.stepIndex == i))) ∧
    (runStepWithRetry env 2 i w0
        { st0 with
          currentStepIndex := i, browserNum := (steps.get ⟨i, hi⟩).browserNum }).state.shouldContinue = false ∧
    (∃ r, (runStepWithRetry env 2 i w0
        { st0 with
          currentStepIndex := i, browserNum := (steps.get ⟨i, hi⟩).browserNum }).state.results =
        st0.results.filter (fun r2 => !(r2.stepIndex == i)) ++ [r] ∧
      r.stepIndex = i ∧ r.success = false) ∧
    stepSucceeded (runStepWithRetry env 2 i w0
        { st0 with
          currentStepIndex := i, browserNum := (steps.get ⟨i, hi⟩).browserNum }).state i = false ∧
    runTestSuiteLoop env 2 steps i w0 st0 =
      ((runStepWithRetry env 2 i w0
        { st0 with
          currentStepIndex := i, browserNum := (steps.get ⟨i, hi⟩).browserNum }).world,
       (runStepWithRetry env 2 i w0
        { st0 with
          currentStepIndex := i, browserNum := (steps.get ⟨i, hi⟩).browserNum }).state) := by
  have hts1 : ({ st0 with
      currentStepIndex := i, browserNum := (steps.get ⟨i, hi⟩).browserNum } : TestState).testSteps =
      steps := hst
  have hci1 : ({ st0 with
      currentStepIndex := i,
      browserNum := (steps.get ⟨i, hi⟩).browserNum } : TestState).currentStepIndex = i := rfl
  obtain ⟨hA, hL, hI, hT, hC, hZ, hP⟩ := retryGo_fail env steps i hi hne hfail 3 w0
    { st0 with
      currentStepIndex := i, browserNum := (steps.get ⟨i, hi⟩).browserNum } hts1 hci1
  obtain ⟨hSC, r, hres, hri, hrs⟩ := hP (by omega)
  have hsucc : stepSucceeded (runStepWithRetry env 2 i w0
      { st0 with
        currentStepIndex := i, browserNum := (steps.get ⟨i, hi⟩).browserNum }).state i =
      false := by
    rw [stepSucceeded_last _ st0.results r i (by simpa using hres) hri]
    exact hrs
  refine ⟨hA, hL, fun s2 hs2 => hI s2 hs2, hSC, ⟨r, by simpa using hres, hri, hrs⟩, hsucc, ?_⟩
  unfold runTestSuiteLoop
  obtain ⟨k, hk⟩ : ∃ k, steps.length - i = k + 1 := ⟨steps.length - i - 1, by omega⟩
  rw [hk]
  simp only [runTestSuiteGo, dif_pos hi]
  rw [show (runStepWithRetry env 2 i w0
      { st0 with
        currentStepIndex := i,
        browserNum := (steps.get ⟨i, hi⟩).browserNum }).state.shouldContinue = false from hSC]
  simp

/-- Witness for C2 at concrete inputs: a single always-failing verified step
under the concrete oracle environment is attempted exactly three times, the
attempt is recorded as failed, and the suite loop halts on it. -/
theorem claim2_witness :
    ((0 : Nat) < [stepDo].length ∧
     stepDo.expectedResult ≠ "__AUTO_PASS__" ∧
     stDo.testSteps = [stepDo]) ∧
    ((runStepWithRetry envW 2 0 world0
        { stDo with
          currentStepIndex := 0, browserNum := stepDo.browserNum }).attempts = 3 ∧
     stepSucceeded (runStepWithRetry envW 2 0 world0
        { stDo with
          currentStepIndex := 0, browserNum := stepDo.browserNum }).state 0 = false) := by
  have h := claim2_retry_bound envW [stepDo] 0 world0 stDo
    (by decide) (by decide) (fun w page => rfl) rfl
  exact ⟨⟨by decide, by decide, rfl⟩, h.1, h.2.2.2.2.2.1⟩

end FlowSpec
